/-
Verification of the Scene & Slicing Engine of Slicer-PySLM.

The definitions below are a shallow embedding of the Python sources
`src/application/scene_manager.py`, `src/application/slicer_service.py` and
`src/domain/models.py`.  Machine floating-point arithmetic is idealised to
exact rational arithmetic (ℚ); the external geometry library (trimesh) is
modelled through the adapter capabilities the code actually uses (bounds,
centroid, translate, copy, planar section), exactly as the specification
declares them external.  uuid-based object ids are modelled by a fresh-id
counter.  Python's in-place mutation is modelled either by explicit heap
cells (where a claim is about aliasing) or by value updates (where no
aliasing between distinct objects can arise for the modelled operations).
-/
import Mathlib

namespace Slicer

/-- 3-component vector over exact rationals (models numpy float64 triples). -/
structure Vec3 where
  x : ℚ
  y : ℚ
  z : ℚ
deriving DecidableEq

instance : Add Vec3 := ⟨fun a b => ⟨a.x + b.x, a.y + b.y, a.z + b.z⟩⟩

def Vec3.neg (v : Vec3) : Vec3 := ⟨-v.x, -v.y, -v.z⟩

def Vec3.zero : Vec3 := ⟨0, 0, 0⟩

def Vec3.one : Vec3 := ⟨1, 1, 1⟩

/-- `Transform` of scene_manager.py: translation / rotation (deg) / scale. -/
structure Transform where
  translation : Vec3
  rotation_deg : Vec3
  scale : Vec3
deriving DecidableEq

/-- Default-constructed `Transform()` (zeros, zeros, ones). -/
def Transform.default : Transform := ⟨Vec3.zero, Vec3.zero, Vec3.one⟩

/-- `_UndoEntry` of scene_manager.py: snapshot of one object transform. -/
structure UndoEntry where
  uid : ℕ
  label : String
  transform_before : Transform
  transform_after : Transform
deriving DecidableEq

/-- `UndoRedoManager` of scene_manager.py.  Python keeps `_index : int`
starting at `-1`; we keep `indexSucc = _index + 1 : ℕ` to stay in ℕ. -/
structure UndoRedoManager where
  stack : List UndoEntry
  indexSucc : ℕ
  max_depth : ℕ
deriving DecidableEq

namespace UndoRedoManager

/-- `UndoRedoManager(max_depth=50)` freshly constructed. -/
def empty : UndoRedoManager := ⟨[], 0, 50⟩

/-- `push`: truncate the redo tail at the cursor, append the entry, pop the
oldest entry when the depth cap is exceeded, and reset the cursor to the
top.  (The two sequential writes of the Python body are flattened into one
conditional.) -/
def push (m : UndoRedoManager) (e : UndoEntry) : UndoRedoManager :=
  if m.max_depth < (m.stack.take m.indexSucc ++ [e]).length then
    ⟨(m.stack.take m.indexSucc ++ [e]).drop 1,
      ((m.stack.take m.indexSucc ++ [e]).drop 1).length, m.max_depth⟩
  else
    ⟨m.stack.take m.indexSucc ++ [e],
      (m.stack.take m.indexSucc ++ [e]).length, m.max_depth⟩

/-- `can_undo`: `_index >= 0`. -/
def canUndo (m : UndoRedoManager) : Bool := 0 < m.indexSucc

/-- `can_redo`: `_index < len(stack) - 1`. -/
def canRedo (m : UndoRedoManager) : Bool := m.indexSucc < m.stack.length

/-- `undo`: return the entry at the cursor and move the cursor down. -/
def undo (m : UndoRedoManager) : Option (UndoEntry × UndoRedoManager) :=
  if m.canUndo then
    match m.stack[m.indexSucc - 1]? with
    | some e => some (e, ⟨m.stack, m.indexSucc - 1, m.max_depth⟩)
    | none => none
  else none

/-- `redo`: move the cursor up and return the entry now at the cursor. -/
def redo (m : UndoRedoManager) : Option (UndoEntry × UndoRedoManager) :=
  if m.canRedo then
    match m.stack[m.indexSucc]? with
    | some e => some (e, ⟨m.stack, m.indexSucc + 1, m.max_depth⟩)
    | none => none
  else none

end UndoRedoManager

/-!  ## Scene transform state machine (claim C2)

View of `SceneManager` restricted to what `set_transform(record_undo=True)` /
`mirror_selected` / `perform_undo` / `perform_redo` touch: the transform of
each object (the `_objects` dict, keyed by uid, restricted to its transform
field — objects are never removed by the modelled operations, so the map is
total) together with the `UndoRedoManager`.  Each recorded edit is an
arbitrary function of the previous transform, covering the partial updates
`set_transform` performs and the scale negation of `mirror_selected`. -/

structure SState where
  objs : ℕ → Transform
  mgr : UndoRedoManager

/-- A recorded-transform-edit / undo / redo operation on the scene. -/
inductive SOp where
  | edit (uid : ℕ) (label : String) (f : Transform → Transform)
  | undo
  | redo

/-- Pointwise update of the object-transform map (dict item assignment). -/
def updObj (g : ℕ → Transform) (u : ℕ) (t : Transform) : ℕ → Transform :=
  fun v => if v = u then t else g v

/-- One step of the scene: `set_transform(..., record_undo=True)` (clone
before, apply update, clone after, push), `perform_undo`, `perform_redo`. -/
def sstep (s : SState) : SOp → SState
  | .edit uid label f =>
      let before := s.objs uid
      let after := f before
      ⟨updObj s.objs uid after, s.mgr.push ⟨uid, label, before, after⟩⟩
  | .undo =>
      match s.mgr.undo with
      | none => s
      | some (e, m) => ⟨updObj s.objs e.uid e.transform_before, m⟩
  | .redo =>
      match s.mgr.redo with
      | none => s
      | some (e, m) => ⟨updObj s.objs e.uid e.transform_after, m⟩

/-- Run a trace of operations from an initial scene (empty history). -/
def srun (init : ℕ → Transform) (ops : List SOp) : SState :=
  ops.foldl sstep ⟨init, UndoRedoManager.empty⟩

/-- Replay one undo entry onto an object-transform map (write its `after`). -/
def applyE (g : ℕ → Transform) (e : UndoEntry) : ℕ → Transform :=
  updObj g e.uid e.transform_after

/-- Replay a stack prefix of undo entries onto a base object map. -/
def replay (base : ℕ → Transform) (st : List UndoEntry) : ℕ → Transform :=
  st.foldl applyE base

/-- History invariant of the scene state machine: the current object map is
the replay, over some base map, of the stack prefix up to the cursor, and
each entry's `transform_before` (at its own uid) is the replayed value just
below it. -/
def SInv (s : SState) : Prop :=
  ∃ base : ℕ → Transform,
    s.objs = replay base (s.mgr.stack.take s.mgr.indexSucc) ∧
    (∀ j e, s.mgr.stack[j]? = some e →
        e.transform_before = replay base (s.mgr.stack.take j) e.uid) ∧
    s.mgr.indexSucc ≤ s.mgr.stack.length

/-!  ## Slicing pipeline (slicer_service.py, claims C1 C3 C4 C5 C9)

`trimesh` meshes are abstracted to the adapter capabilities `slice` uses:
the Z-range of `mesh.bounds` and the planar-section capability
`mesh.section(...)` (which may throw — `Except.error` — or return no
section — `Option.none`).  Progress messages are modelled by the emitted
ratio together with the `processed_layers` counter at emission time; the
wall-clock fields and the internal build-time estimate of the result dict
are not modelled (real time is not statable).  Floats are idealised to ℚ. -/

/-- Python `int(q)`: truncation toward zero. -/
def truncQ (q : ℚ) : ℤ := if 0 ≤ q then ⌊q⌋ else ⌈q⌉

/-- `numpy.arange(start, stop, step)` in exact arithmetic: the documented
length is `ceil((stop - start) / step)` (clamped at 0), element `i` is
`start + i*step`. -/
def arangeQ (start stop step : ℚ) : List ℚ :=
  (List.range (⌈(stop - start) / step⌉).toNat).map (fun (i : ℕ) => start + (i : ℚ) * step)

/-- `BuildStyle` of domain/models.py. -/
structure BuildStyle where
  name : String
  layer_thickness : ℚ
  laser_power : ℚ
  scan_speed : ℚ
  hatch_spacing : ℚ
  hatch_angle_increment : ℚ
deriving DecidableEq

/-- The `params` dict handed to `slice` / `estimate_build_time`; the GUI
always passes every key, so it is modelled as a full record. -/
structure SliceParams where
  layer_thickness : ℚ
  laser_power : ℚ
  scan_speed : ℚ
  hatch_spacing : ℚ
  hatch_angle_increment : ℚ
deriving DecidableEq

/-- `Layer` of domain/models.py (hatches are never filled in by the service
and are omitted). -/
structure Layer where
  z_height : ℚ
  contours : List (List (ℚ × ℚ))
deriving DecidableEq

/-- `SLMPart` of domain/models.py restricted to the fields `slice` writes. -/
structure SLMPart where
  name : String
  layers : List Layer
deriving DecidableEq

/-- One entry of `mesh_items`: the name, the world Z-range of the mesh
(`mesh.bounds[0][2]`, `mesh.bounds[1][2]`) and the planar-section adapter
capability at a height (may throw, may yield nothing, may yield contours). -/
structure SliceItem where
  name : String
  z_min : ℚ
  z_max : ℚ
  sec : ℚ → Except Unit (Option (List (List (ℚ × ℚ))))

/-- The `try: section/to_planar/entities except: contours = []` block around
one height: a throw or an absent section yields the empty contour list. -/
def secContours (sec : ℚ → Except Unit (Option (List (List (ℚ × ℚ))))) (z : ℚ) :
    List (List (ℚ × ℚ)) :=
  match sec z with
  | .error _ => []
  | .ok none => []
  | .ok (some cs) => cs

/-- One progress emission: the value passed to the callback and the
`processed_layers` counter at that moment. -/
structure Emit where
  frac : ℚ
  processed : ℕ
deriving DecidableEq

/-- The per-layer progress emissions of one item: after layer `zi` is
appended (`processed = proc + zi + 1`), emit when `zi % 20 == 0`. -/
def layerEmitsOf (D : ℚ) (proc numH : ℕ) : List Emit :=
  (List.range numH).filterMap (fun zi =>
    if zi % 20 = 0 then some ⟨((proc + zi + 1 : ℕ) : ℚ) / D, proc + zi + 1⟩ else none)

/-- `total_z_expected`: per item `max(1, int((z_max - z_min)/t))`, summed. -/
def totalExpected (t : ℚ) (items : List SliceItem) : ℕ :=
  items.foldl (fun acc it => acc + max 1 (truncQ ((it.z_max - it.z_min) / t)).toNat) 0

/-- The main loop of `slice`: per item, build the part from the `arange`
heights, emit the pre-item progress then the per-layer progress, and thread
`processed_layers`. -/
def sliceCore (t D : ℚ) : List SliceItem → ℕ → List SLMPart × List Emit × ℕ
  | [], proc => ([], [], proc)
  | it :: rest, proc =>
    let heights := arangeQ it.z_min it.z_max t
    let part : SLMPart := ⟨it.name, heights.map (fun z => ⟨z, secContours it.sec z⟩)⟩
    let r := sliceCore t D rest (proc + heights.length)
    (part :: r.1,
      (⟨((proc : ℕ) : ℚ) / D, proc⟩ : Emit) :: (layerEmitsOf D proc heights.length ++ r.2.1),
      r.2.2)

/-- Result of one slice run: `last_parts`, the `total_layers` field of the
result dict, the `layer_thickness` recorded in the result dict, and the
ordered progress-emission trace. -/
structure SliceOut where
  parts : List SLMPart
  total_layers : ℕ
  layer_thickness : ℚ
  trace : List Emit

/-- `SlicerService.slice`. -/
def slice (params : SliceParams) (items : List SliceItem) : SliceOut :=
  let style : BuildStyle :=
    ⟨"GUI_Style", params.layer_thickness, params.laser_power, params.scan_speed,
      params.hatch_spacing, params.hatch_angle_increment⟩
  let texp := totalExpected style.layer_thickness items
  let D : ℚ := ((max 1 texp : ℕ) : ℚ)
  let r := sliceCore style.layer_thickness D items 0
  let total := r.1.foldl (fun a p => a + p.layers.length) 0
  ⟨r.1, total, style.layer_thickness, ⟨0, 0⟩ :: (r.2.1 ++ [⟨1, r.2.2⟩])⟩

/-- One record of the exported ASCII CLI file.  Numeric fields carry the
exact value that the `:.4f` formatting would print. -/
inductive CLine where
  | headerStart
  | asciiTag
  | unitsTag
  | layerThickness (v : ℚ)
  | headerEnd
  | partComment (name : String)
  | layerRec (z : ℚ)
  | polyline (count : ℕ) (coords : List ℚ)
  | endTag
deriving DecidableEq

/-- `SlicerService.export_cli`: raises (`Except.error`) when `last_parts`
is empty, otherwise produces the record list and the `written` counter
(incremented once per layer). -/
def export_cli (last_parts : List SLMPart) (last_result : Option ℚ) :
    Except String (List CLine × ℕ) :=
  if last_parts.isEmpty then
    Except.error "No slice data - run slice() first."
  else
    let header : List CLine :=
      [CLine.headerStart, CLine.asciiTag, CLine.unitsTag] ++
        (match last_result with
         | some lt => [CLine.layerThickness lt]
         | none => []) ++ [CLine.headerEnd]
    let body : List CLine :=
      last_parts.flatMap (fun p =>
        CLine.partComment p.name ::
          p.layers.flatMap (fun l =>
            CLine.layerRec l.z_height ::
              l.contours.filterMap (fun c =>
                if c.isEmpty then none
                else some (CLine.polyline c.length
                  (c.flatMap (fun pt => [pt.1, pt.2]))))))
    let written := last_parts.foldl (fun a p => a + p.layers.length) 0
    Except.ok (header ++ body ++ [CLine.endTag], written)

/-- Number of `$$LAYER/<z>` records in an exported line list. -/
def countLayerRecs (ls : List CLine) : ℕ :=
  ls.countP (fun l => match l with | CLine.layerRec _ => true | _ => false)

/-- Footprint entries for `estimate_build_time`: per mesh item, `None` or
the world X/Y extents (`mesh.extents[0]`, `mesh.extents[1]`). -/
def totalAreaOf (meshes : List (Option (ℚ × ℚ))) : ℚ :=
  meshes.foldl (fun acc m =>
    match m with
    | some e => acc + e.1 * e.2
    | none => acc) 0

/-- `SlicerService.estimate_build_time`.  The float power
`total_area_mm2 ** 0.5` is modelled by the parameter `sqrtArea`, pinned in
the theorems by `0 ≤ sqrtArea ∧ sqrtArea ^ 2 = footprint area`. -/
def estimate_build_time (params : SliceParams) (total_layers : ℕ)
    (meshes : List (Option (ℚ × ℚ))) (sqrtArea : ℚ) : ℚ :=
  let scan_speed := params.scan_speed
  let hatch_spacing := params.hatch_spacing
  let recoat_s : ℚ := 8
  let total_area_mm2 : ℚ := if meshes.isEmpty then 2500 else totalAreaOf meshes
  let lines_per_layer := total_area_mm2 / max hatch_spacing (1 / 100)
  let avg_line_len := max sqrtArea 1
  let scan_time_per_layer := lines_per_layer * avg_line_len / max scan_speed 1
  ((scan_time_per_layer + recoat_s) * (total_layers : ℚ)) / 3600

/-- The estimate formula exactly as claim C9 words it (no lower clamp on
the square-root factor); kept separate to compare against the code. -/
def estimateClaimFormula (params : SliceParams) (total_layers : ℕ)
    (meshes : List (Option (ℚ × ℚ))) (sqrtArea : ℚ) : ℚ :=
  let area : ℚ := if meshes.isEmpty then 2500 else totalAreaOf meshes
  (area / max params.hatch_spacing (1 / 100) * sqrtArea / max params.scan_speed 1 + 8) *
    (total_layers : ℚ) / 3600

/-!  ## Build-volume validation (scene_manager.py, claim C6)

`bounds_mm` (the AABB of the transform-baked mesh copy) is produced by the
external geometry adapter; for the validation logic it is data, so a scene
object is carried here with its world bounds. -/

/-- A visible/invisible object with its world-space AABB. -/
structure VObj where
  uid : ℕ
  name : String
  visible : Bool
  bmin : Vec3
  bmax : Vec3
deriving DecidableEq

/-- The two violation reasons (the formatted message strings of the source,
distinguished by their fixed text; the below-plate message carries the
printed `min_pt[2]`). -/
inductive Violation where
  | radiusExceeded
  | belowPlate (zmin : ℚ)
deriving DecidableEq

/-- The 4 horizontal bounding-box corners checked by `check_build_volume`. -/
def cornersXY (o : VObj) : List (ℚ × ℚ) :=
  [(o.bmin.x, o.bmin.y), (o.bmin.x, o.bmax.y), (o.bmax.x, o.bmin.y), (o.bmax.x, o.bmax.y)]

/-- Exact rational test for `math.sqrt(cx**2 + cy**2) > r` (the radicand is
a sum of squares, hence nonnegative); justified by `sqrtGtR_iff_real`. -/
def sqrtGtR (cx cy r : ℚ) : Bool :=
  decide (r < 0) || decide (r ^ 2 < cx ^ 2 + cy ^ 2)

/-- Per-object contribution to the issue list: one radius entry if any of
the 4 corners fails (the source breaks after the first bad corner), then
one below-plate entry if `min_pt[2] < -0.01`. -/
def objIssues (r : ℚ) (o : VObj) : List (ℕ × Violation) :=
  if !o.visible then []
  else
    (if (cornersXY o).any (fun c => sqrtGtR c.1 c.2 r) then
      [(o.uid, Violation.radiusExceeded)] else []) ++
    (if o.bmin.z < -(1 / 100) then [(o.uid, Violation.belowPlate o.bmin.z)] else [])

/-- `SceneManager.check_build_volume` as the source's accumulating loop. -/
def check_build_volume (r : ℚ) (objs : List VObj) : List (ℕ × Violation) :=
  objs.foldl (fun issues o =>
    if !o.visible then issues
    else
      (if (cornersXY o).any (fun c => sqrtGtR c.1 c.2 r) then
        issues ++ [(o.uid, Violation.radiusExceeded)] else issues) ++
      (if o.bmin.z < -(1 / 100) then [(o.uid, Violation.belowPlate o.bmin.z)] else []))
    []

/-!  ## Heap-modelled scene (scene_manager.py, claims C7 C10)

`add_mesh` mutates the caller's mesh in place and `duplicate` deep-copies
mesh and transform, so meshes and transforms live in explicit heap cells
here; an object holds cell indices.  A mesh is carried through the adapter
capabilities the code uses: centroid, AABB, translate (all exact). -/

/-- Adapter view of a `trimesh.Trimesh`: its centroid and AABB.  Translation
shifts all three; `copy` duplicates the value into a fresh cell. -/
structure MeshA where
  centroid : Vec3
  bmin : Vec3
  bmax : Vec3
deriving DecidableEq

/-- `mesh.apply_translation(v)`. -/
def MeshA.translate (m : MeshA) (v : Vec3) : MeshA :=
  ⟨m.centroid + v, m.bmin + v, m.bmax + v⟩

/-- `mesh.extents[0] = bounds[1][0] - bounds[0][0]`. -/
def MeshA.extentsX (m : MeshA) : ℚ := m.bmax.x - m.bmin.x

def defaultMesh : MeshA := ⟨Vec3.zero, Vec3.zero, Vec3.zero⟩

/-- `SceneObject` with mesh and transform held as heap-cell indices. -/
structure HObj where
  uid : ℕ
  name : String
  meshRef : ℕ
  tRef : ℕ
  visible : Bool
  selected : Bool
  source_path : String
deriving DecidableEq

/-- `SceneManager` state: mesh heap, transform heap, object list (dict in
insertion order), selection, fresh-uid counter (models `uuid4().hex[:8]`),
and the recent-files list. -/
structure Scene where
  mcells : List MeshA
  tcells : List Transform
  objs : List HObj
  selection : Option ℕ
  nextUid : ℕ
  recent : List String
deriving DecidableEq

/-- Dict lookup `self._objects.get(uid)`. -/
def findObj (s : Scene) (uid : ℕ) : Option HObj :=
  s.objs.find? (fun o => o.uid = uid)

/-- In-place update of the object with the given uid. -/
def setObj (s : Scene) (uid : ℕ) (f : HObj → HObj) : Scene :=
  { s with objs := s.objs.map (fun o => if o.uid = uid then f o else o) }

/-- Read a transform heap cell. -/
def getT (s : Scene) (i : ℕ) : Transform := s.tcells.getD i Transform.default

/-- Write a transform heap cell. -/
def setT (s : Scene) (i : ℕ) (t : Transform) : Scene :=
  { s with tcells := s.tcells.set i t }

/-- Read a mesh heap cell. -/
def getM (s : Scene) (i : ℕ) : MeshA := s.mcells.getD i defaultMesh

/-- `SceneManager.select`: clear the previous selection's flag, set the new
selection uid, set the new object's flag when it exists. -/
def select (s : Scene) (uid : Option ℕ) : Scene :=
  let s1 :=
    match s.selection with
    | some prev =>
        if (findObj s prev).isSome then setObj s prev (fun o => { o with selected := false })
        else s
    | none => s
  let s2 := { s1 with selection := uid }
  match uid with
  | some u =>
      if (findObj s2 u).isSome then setObj s2 u (fun o => { o with selected := true })
      else s2
  | none => s2

/-- `SceneManager._add_recent`: de-duplicate, front-insert, cap at 10. -/
def addRecent (l : List String) (p : String) : List String :=
  (p :: l.erase p).take 10

/-- `SceneManager.add_mesh`: translate the caller's mesh cell in place
(centre on the centroid, then drop to Z=0), store an object holding that
same cell and a fresh default transform cell, select it, record the recent
file.  Returns the new uid. -/
def add_mesh (s : Scene) (name : String) (mref : ℕ) (source_path : String) :
    Scene × ℕ :=
  let uid := s.nextUid
  let m := getM s mref
  let m1 := m.translate (Vec3.neg m.centroid)
  let m2 := m1.translate ⟨0, 0, -m1.bmin.z⟩
  let tRef := s.tcells.length
  let obj : HObj := ⟨uid, name, mref, tRef, true, false, source_path⟩
  let s1 : Scene :=
    { s with
      mcells := s.mcells.set mref m2
      tcells := s.tcells ++ [Transform.default]
      objs := s.objs ++ [obj]
      nextUid := uid + 1 }
  let s2 := select s1 (some uid)
  let s3 := if source_path ≠ "" then { s2 with recent := addRecent s2.recent source_path } else s2
  (s3, uid)

/-- `SceneManager.duplicate`: `None` and no change for an unknown uid;
otherwise deep-copy mesh and transform into fresh cells, offset the copy's
translation (default `1.2 × mesh.extents[0]` along +X), store and select
the copy.  Returns the copy's uid. -/
def duplicate (s : Scene) (uid : ℕ) (offset : Option Vec3) : Scene × Option ℕ :=
  match findObj s uid with
  | none => (s, none)
  | some src =>
    let newUid := s.nextUid
    let newMesh := getM s src.meshRef
    let off := offset.getD ⟨(getM s src.meshRef).extentsX * (6 / 5), 0, 0⟩
    let newT : Transform :=
      { getT s src.tRef with translation := (getT s src.tRef).translation + off }
    let mRef := s.mcells.length
    let tRef := s.tcells.length
    let obj : HObj := ⟨newUid, src.name ++ "_copy", mRef, tRef, true, false, src.source_path⟩
    let s1 : Scene :=
      { s with
        mcells := s.mcells ++ [newMesh]
        tcells := s.tcells ++ [newT]
        objs := s.objs ++ [obj]
        nextUid := newUid + 1 }
    let s2 := select s1 (some newUid)
    (s2, some newUid)

/-- `set_transform(uid, scale=v)` (no undo recording): write the scale field
of the object's transform cell in place. -/
def set_scale (s : Scene) (uid : ℕ) (v : Vec3) : Scene :=
  match findObj s uid with
  | none => s
  | some o => setT s o.tRef { getT s o.tRef with scale := v }

/-- Scale of the transform of the object with the given uid. -/
def scaleOf (s : Scene) (uid : ℕ) : Vec3 :=
  match findObj s uid with
  | none => Vec3.zero
  | some o => (getT s o.tRef).scale

/-- Well-formedness of a scene: heap references valid, uids distinct and
below the fresh counter. -/
def SceneWF (s : Scene) : Prop :=
  (∀ o ∈ s.objs, o.tRef < s.tcells.length ∧ o.meshRef < s.mcells.length) ∧
  (s.objs.map HObj.uid).Nodup ∧
  (∀ o ∈ s.objs, o.uid < s.nextUid)

/-!  ## Auto-arrange (scene_manager.py, claim C8)

Value-semantics view of the objects `auto_arrange` touches (uid, visibility,
transform); each object's transform is exclusively owned, so no aliasing can
arise between distinct objects here. -/

/-- A scene object as `auto_arrange` sees it. -/
structure VSObj where
  uid : ℕ
  visible : Bool
  transform : Transform
deriving DecidableEq

/-- `int(math.ceil(math.sqrt(n)))` in exact arithmetic. -/
def ceilSqrt (n : ℕ) : ℕ :=
  if Nat.sqrt n * Nat.sqrt n = n then Nat.sqrt n else Nat.sqrt n + 1

/-- X coordinate of grid slot `i`: `(col - (cols-1)/2) * spacing`. -/
def arrangePosX (cols : ℕ) (spacing : ℚ) (i : ℕ) : ℚ :=
  (((i % cols : ℕ) : ℚ) - ((cols : ℚ) - 1) / 2) * spacing

/-- Y coordinate of grid slot `i`: `(row - (n//cols - 1)/2) * spacing`. -/
def arrangePosY (n cols : ℕ) (spacing : ℚ) (i : ℕ) : ℚ :=
  (((i / cols : ℕ) : ℚ) - (((n / cols : ℕ) : ℚ) - 1) / 2) * spacing

/-- The enumerate-loop of `auto_arrange`: thread the visible index, write
X/Y translation of each visible object, push one undo entry per move. -/
def autoArrangeGo (n cols : ℕ) (spacing : ℚ) :
    List VSObj → ℕ → UndoRedoManager → List VSObj × UndoRedoManager
  | [], _, mgr => ([], mgr)
  | o :: rest, i, mgr =>
    if o.visible then
      let t2 : Transform :=
        ⟨⟨arrangePosX cols spacing i, arrangePosY n cols spacing i,
            o.transform.translation.z⟩,
          o.transform.rotation_deg, o.transform.scale⟩
      let mgr2 := mgr.push ⟨o.uid, "Auto-arrange", o.transform, t2⟩
      let r := autoArrangeGo n cols spacing rest (i + 1) mgr2
      (⟨o.uid, o.visible, t2⟩ :: r.1, r.2)
    else
      let r := autoArrangeGo n cols spacing rest i mgr
      (o :: r.1, r.2)

/-- `SceneManager.auto_arrange`. -/
def auto_arrange (radius : ℚ) (objs : List VSObj) (mgr : UndoRedoManager) :
    List VSObj × UndoRedoManager :=
  let vis := objs.filter (fun o => o.visible)
  if vis.isEmpty then (objs, mgr)
  else
    let n := vis.length
    let cols := max 1 (ceilSqrt n)
    let spacing := radius * (3 / 5)
    autoArrangeGo n cols spacing objs 0 mgr

/-- Minimum of a list of rationals (0 for the empty list). -/
def qmin : List ℚ → ℚ
  | [] => 0
  | x :: xs => xs.foldl min x

/-- Maximum of a list of rationals (0 for the empty list). -/
def qmax : List ℚ → ℚ
  | [] => 0
  | x :: xs => xs.foldl max x

/-- Midpoint of the spanned interval of a list of rationals; "centered on
the origin" for a coordinate list means this midpoint is 0. -/
def midspan (l : List ℚ) : ℚ := (qmin l + qmax l) / 2

/-- The X translations of the visible objects of a scene list. -/
def visXs (objs : List VSObj) : List ℚ :=
  (objs.filter (fun o => o.visible)).map (fun o => o.transform.translation.x)

/-- The Y translations of the visible objects of a scene list. -/
def visYs (objs : List VSObj) : List ℚ :=
  (objs.filter (fun o => o.visible)).map (fun o => o.transform.translation.y)


/-- Two scene objects agreeing on everything except the selection flag. -/
def sameCore (a b : HObj) : Prop :=
  a.uid = b.uid ∧ a.name = b.name ∧ a.meshRef = b.meshRef ∧ a.tRef = b.tRef ∧
    a.visible = b.visible ∧ a.source_path = b.source_path

/-! ## Theorems -/

lemma replay_append (base : ℕ → Transform) (l : List UndoEntry) (e : UndoEntry) :
    replay base (l ++ [e]) = applyE (replay base l) e := by
  simp [replay, List.foldl_append]

lemma replay_cons (base : ℕ → Transform) (e : UndoEntry) (l : List UndoEntry) :
    replay base (e :: l) = replay (applyE base e) l := rfl

lemma sinv_init (init : ℕ → Transform) : SInv ⟨init, UndoRedoManager.empty⟩ := by
  refine ⟨init, rfl, ?_, ?_⟩
  · intro j e hj; simp [UndoRedoManager.empty] at hj
  · simp [UndoRedoManager.empty]

/-- Dropping the oldest stack entry shifts the before-chain onto an updated
base. -/
lemma chain_shift (b : ℕ → Transform) (e0 : UndoEntry) (tl : List UndoEntry)
    (hch : ∀ j e, (e0 :: tl)[j]? = some e →
        e.transform_before = replay b ((e0 :: tl).take j) e.uid) :
    ∀ j e, tl[j]? = some e →
        e.transform_before = replay (applyE b e0) (tl.take j) e.uid := by
  intro j e hj
  have h := hch (j + 1) e (by simpa using hj)
  rwa [List.take_succ_cons, replay_cons] at h

lemma sinv_step (s : SState) (op : SOp) (h : SInv s) : SInv (sstep s op) := by
  obtain ⟨base, hobjs, hchain, hle⟩ := h
  cases op with
  | edit uid label f =>
    have hklen : (s.mgr.stack.take s.mgr.indexSucc).length = s.mgr.indexSucc := by
      simp [List.length_take, Nat.min_eq_left hle]
    set e : UndoEntry := ⟨uid, label, s.objs uid, f (s.objs uid)⟩ with hedef
    set st1 : List UndoEntry := s.mgr.stack.take s.mgr.indexSucc ++ [e] with hst1
    have hlen1 : st1.length = s.mgr.indexSucc + 1 := by
      simp [hst1, hklen]
    -- the chain holds for the truncated-and-appended stack
    have hchain1 : ∀ j en, st1[j]? = some en →
        en.transform_before = replay base (st1.take j) en.uid := by
      intro j en hj
      rcases Nat.lt_trichotomy j s.mgr.indexSucc with hlt | heq | hgt
      · have hj' : s.mgr.stack[j]? = some en := by
          rw [hst1, List.getElem?_append_left (by omega)] at hj
          rwa [List.getElem?_take_of_lt hlt] at hj
        have htk : st1.take j = s.mgr.stack.take j := by
          rw [hst1, List.take_append_of_le_length (by omega), List.take_take,
            Nat.min_eq_left (by omega)]
        rw [htk]
        exact hchain j en hj'
      · subst heq
        have hj' : en = e := by
          rw [hst1, List.getElem?_append_right (by omega)] at hj
          simp [hklen] at hj
          exact hj.symm
        subst hj'
        have htk : st1.take s.mgr.indexSucc = s.mgr.stack.take s.mgr.indexSucc := by
          rw [hst1, List.take_append_of_le_length (by omega), List.take_take,
            Nat.min_self]
        rw [htk, hedef, ← hobjs]
      · exfalso
        have hnone : st1[j]? = none := List.getElem?_eq_none (by omega)
        rw [hnone] at hj
        exact Option.noConfusion hj
    have hobjs1 : updObj s.objs uid (f (s.objs uid)) = replay base st1 := by
      rw [hst1, replay_append, ← hobjs]
      rfl
    show SInv ⟨updObj s.objs uid (f (s.objs uid)),
      s.mgr.push ⟨uid, label, s.objs uid, f (s.objs uid)⟩⟩
    rw [show (⟨uid, label, s.objs uid, f (s.objs uid)⟩ : UndoEntry) = e from rfl]
    rw [UndoRedoManager.push, ← hst1]
    by_cases hcap : s.mgr.max_depth < st1.length
    · -- depth cap exceeded: oldest entry is dropped
      rw [if_pos hcap]
      obtain ⟨e0, tl, hst⟩ : ∃ e0 tl, st1 = e0 :: tl := by
        cases hx : st1 with
        | nil => rw [hx] at hlen1; exact absurd hlen1 (by simp)
        | cons a l => exact ⟨a, l, rfl⟩
      rw [hst]
      refine ⟨applyE base e0, ?_, ?_, ?_⟩
      · show updObj s.objs uid (f (s.objs uid)) =
          replay (applyE base e0) ((e0 :: tl).drop 1 |>.take ((e0 :: tl).drop 1).length)
        rw [List.take_length]
        simp only [List.drop_succ_cons, List.drop_zero]
        rw [hobjs1, hst, replay_cons]
      · intro j en hj
        simp only [List.drop_succ_cons, List.drop_zero] at hj ⊢
        refine chain_shift base e0 tl ?_ j en hj
        rw [← hst]
        exact hchain1
      · simp
    · rw [if_neg hcap]
      exact ⟨base, by rw [List.take_length]; exact hobjs1, hchain1, le_refl _⟩
  | undo =>
    rcases hu : s.mgr.undo with _ | ⟨e, m⟩
    · have hid : sstep s .undo = s := by simp [sstep, hu]
      rw [hid]
      exact ⟨base, hobjs, hchain, hle⟩
    · have hcu : s.mgr.canUndo = true := by
        by_contra hc
        simp [UndoRedoManager.undo, hc] at hu
      have hk0 : 0 < s.mgr.indexSucc := by
        simpa [UndoRedoManager.canUndo] using hcu
      rcases hg : s.mgr.stack[s.mgr.indexSucc - 1]? with _ | e'
      · exfalso
        rw [UndoRedoManager.undo, hcu] at hu
        simp only [if_true, hg] at hu
        exact Option.noConfusion hu
      · have hu2 : s.mgr.undo =
            some (e', ⟨s.mgr.stack, s.mgr.indexSucc - 1, s.mgr.max_depth⟩) := by
          rw [UndoRedoManager.undo, hcu]
          simp only [if_true, hg]
        have hstep : sstep s .undo =
            ⟨updObj s.objs e'.uid e'.transform_before,
              ⟨s.mgr.stack, s.mgr.indexSucc - 1, s.mgr.max_depth⟩⟩ := by
          simp only [sstep, hu2]
        rw [hstep]
        have hsplit : s.mgr.stack.take s.mgr.indexSucc =
            s.mgr.stack.take (s.mgr.indexSucc - 1) ++ [e'] := by
          have h1 : s.mgr.indexSucc - 1 + 1 = s.mgr.indexSucc := by omega
          have h2 := List.take_succ (l := s.mgr.stack) (n := s.mgr.indexSucc - 1)
          rw [h1] at h2
          rw [h2, hg]
          rfl
        refine ⟨base, ?_, hchain, by simp only; omega⟩
        funext v
        by_cases hv : v = e'.uid
        · subst hv
          simp only [updObj, if_pos rfl]
          exact hchain (s.mgr.indexSucc - 1) e' hg
        · simp only [updObj, if_neg hv]
          have h2 := congrFun hobjs v
          rw [hsplit, replay_append] at h2
          simpa [applyE, updObj, hv] using h2
  | redo =>
    rcases hr : s.mgr.redo with _ | ⟨e, m⟩
    · have hid : sstep s .redo = s := by simp [sstep, hr]
      rw [hid]
      exact ⟨base, hobjs, hchain, hle⟩
    · have hcr : s.mgr.canRedo = true := by
        by_contra hc
        simp [UndoRedoManager.redo, hc] at hr
      have hklt : s.mgr.indexSucc < s.mgr.stack.length := by
        simpa [UndoRedoManager.canRedo] using hcr
      rcases hg : s.mgr.stack[s.mgr.indexSucc]? with _ | e'
      · exfalso
        rw [UndoRedoManager.redo, hcr] at hr
        simp only [if_true, hg] at hr
        exact Option.noConfusion hr
      · have hr2 : s.mgr.redo =
            some (e', ⟨s.mgr.stack, s.mgr.indexSucc + 1, s.mgr.max_depth⟩) := by
          rw [UndoRedoManager.redo, hcr]
          simp only [if_true, hg]
        have hstep : sstep s .redo =
            ⟨updObj s.objs e'.uid e'.transform_after,
              ⟨s.mgr.stack, s.mgr.indexSucc + 1, s.mgr.max_depth⟩⟩ := by
          simp only [sstep, hr2]
        rw [hstep]
        have hsplit : s.mgr.stack.take (s.mgr.indexSucc + 1) =
            s.mgr.stack.take s.mgr.indexSucc ++ [e'] := by
          rw [List.take_succ, hg]
          rfl
        refine ⟨base, ?_, hchain, by simp only; omega⟩
        show updObj s.objs e'.uid e'.transform_after =
          replay base (s.mgr.stack.take (s.mgr.indexSucc + 1))
        rw [hsplit, replay_append, ← hobjs]
        rfl

/-- The invariant is preserved by any fold of steps. -/
lemma sinv_foldl (s : SState) (ops : List SOp) (h : SInv s) :
    SInv (ops.foldl sstep s) := by
  induction ops generalizing s with
  | nil => exact h
  | cons op rest ih => exact ih (sstep s op) (sinv_step s op h)

/-- The invariant holds in every reachable state. -/
lemma sinv_srun (init : ℕ → Transform) (ops : List SOp) : SInv (srun init ops) :=
  sinv_foldl _ ops (sinv_init init)


lemma canRedo_push (m : UndoRedoManager) (e : UndoEntry) :
    (m.push e).canRedo = false := by
  rw [UndoRedoManager.push]
  split
  · simp [UndoRedoManager.canRedo]
  · simp [UndoRedoManager.canRedo]

lemma push_stack_len (m : UndoRedoManager) (e : UndoEntry) :
    (m.push e).stack.length ≤ m.indexSucc + 1 := by
  rw [UndoRedoManager.push]
  split
  · simp only [List.length_drop, List.length_append, List.length_take,
      List.length_singleton]
    omega
  · simp only [List.length_append, List.length_take, List.length_singleton]
    omega

/-- C2: in any reachable scene state (traces of recorded transform edits,
undos and redos), when an undo is available, `perform_undo` immediately
followed by `perform_redo` restores the whole state — in particular the
affected object's translation, rotation and scale — to exactly the values
before the undo; and pushing any new recorded edit makes `can_redo` false
and truncates the stack to the cursor (at most cursor+1 entries remain). -/
theorem undo_redo_roundtrip_push_truncates (init : ℕ → Transform) (ops : List SOp)
    (h : (srun init ops).mgr.canUndo = true) :
    sstep (sstep (srun init ops) SOp.undo) SOp.redo = srun init ops ∧
    ∀ uid label f,
      (sstep (srun init ops) (SOp.edit uid label f)).mgr.canRedo = false ∧
      (sstep (srun init ops) (SOp.edit uid label f)).mgr.stack.length ≤
        (srun init ops).mgr.indexSucc + 1 := by
  set s := srun init ops with hs
  obtain ⟨base, hobjs, hchain, hle⟩ := sinv_srun init ops
  rw [← hs] at hobjs hchain hle
  have hk0 : 0 < s.mgr.indexSucc := by
    simpa [UndoRedoManager.canUndo] using h
  have hlt : s.mgr.indexSucc - 1 < s.mgr.stack.length := by omega
  set e := s.mgr.stack.get ⟨s.mgr.indexSucc - 1, hlt⟩ with he
  have hg : s.mgr.stack[s.mgr.indexSucc - 1]? = some e :=
    List.getElem?_eq_getElem hlt
  have hundo : s.mgr.undo =
      some (e, ⟨s.mgr.stack, s.mgr.indexSucc - 1, s.mgr.max_depth⟩) := by
    rw [UndoRedoManager.undo, h]
    simp only [if_true, hg]
  have hstep1 : sstep s SOp.undo =
      ⟨updObj s.objs e.uid e.transform_before,
        ⟨s.mgr.stack, s.mgr.indexSucc - 1, s.mgr.max_depth⟩⟩ := by
    simp only [sstep, hundo]
  have hcr : (⟨s.mgr.stack, s.mgr.indexSucc - 1, s.mgr.max_depth⟩ :
      UndoRedoManager).canRedo = true := by
    simp only [UndoRedoManager.canRedo]
    simpa using hlt
  have hredo : (⟨s.mgr.stack, s.mgr.indexSucc - 1, s.mgr.max_depth⟩ :
      UndoRedoManager).redo =
      some (e, ⟨s.mgr.stack, s.mgr.indexSucc - 1 + 1, s.mgr.max_depth⟩) := by
    rw [UndoRedoManager.redo, hcr]
    simp only [if_true]
    simp only [hg]
  have hstep2 : sstep (sstep s SOp.undo) SOp.redo =
      ⟨updObj (updObj s.objs e.uid e.transform_before) e.uid e.transform_after,
        ⟨s.mgr.stack, s.mgr.indexSucc - 1 + 1, s.mgr.max_depth⟩⟩ := by
    rw [hstep1]
    simp only [sstep, hredo]
  have hk1 : s.mgr.indexSucc - 1 + 1 = s.mgr.indexSucc := by omega
  have hsplit : s.mgr.stack.take s.mgr.indexSucc =
      s.mgr.stack.take (s.mgr.indexSucc - 1) ++ [e] := by
    have h2 := List.take_succ (l := s.mgr.stack) (n := s.mgr.indexSucc - 1)
    rw [hk1] at h2
    rw [h2, hg]
    rfl
  have hafter : s.objs e.uid = e.transform_after := by
    have h2 := congrFun hobjs e.uid
    rw [hsplit, replay_append] at h2
    simpa [applyE, updObj] using h2
  have hback : updObj (updObj s.objs e.uid e.transform_before) e.uid
      e.transform_after = s.objs := by
    funext v
    by_cases hv : v = e.uid
    · subst hv
      simp [updObj, hafter]
    · simp [updObj, hv]
  constructor
  · rw [hstep2, hk1, hback]
  · intro uid label f
    exact ⟨canRedo_push s.mgr _, push_stack_len s.mgr _⟩

/-- Witness for C2 at a concrete one-edit trace. -/
theorem undo_redo_roundtrip_push_truncates_witness :
    (srun (fun _ => Transform.default)
        [SOp.edit 0 "Move" (fun t => ⟨⟨1, 2, 3⟩, t.rotation_deg, t.scale⟩)]).mgr.canUndo
      = true ∧
    (sstep (sstep (srun (fun _ => Transform.default)
          [SOp.edit 0 "Move" (fun t => ⟨⟨1, 2, 3⟩, t.rotation_deg, t.scale⟩)])
        SOp.undo) SOp.redo =
      srun (fun _ => Transform.default)
        [SOp.edit 0 "Move" (fun t => ⟨⟨1, 2, 3⟩, t.rotation_deg, t.scale⟩)] ∧
    ∀ uid label f,
      (sstep (srun (fun _ => Transform.default)
          [SOp.edit 0 "Move" (fun t => ⟨⟨1, 2, 3⟩, t.rotation_deg, t.scale⟩)])
        (SOp.edit uid label f)).mgr.canRedo = false ∧
      (sstep (srun (fun _ => Transform.default)
          [SOp.edit 0 "Move" (fun t => ⟨⟨1, 2, 3⟩, t.rotation_deg, t.scale⟩)])
        (SOp.edit uid label f)).mgr.stack.length ≤
        (srun (fun _ => Transform.default)
          [SOp.edit 0 "Move" (fun t => ⟨⟨1, 2, 3⟩, t.rotation_deg, t.scale⟩)]).mgr.indexSucc
          + 1) :=
  ⟨by decide, undo_redo_roundtrip_push_truncates _ _ (by decide)⟩

/-! ### Slicing pipeline lemmas (C1, C4) -/

lemma arangeQ_length (a b s : ℚ) : (arangeQ a b s).length = (⌈(b - a) / s⌉).toNat := by
  unfold arangeQ
  rw [List.length_map, List.length_range]

lemma arangeQ_get (a b s : ℚ) (j : ℕ) (hj : j < (arangeQ a b s).length) :
    (arangeQ a b s).get ⟨j, hj⟩ = a + (j : ℚ) * s := by
  unfold arangeQ
  rw [List.get_eq_getElem]
  simp only [List.getElem_map, List.getElem_range]

lemma sliceCore_parts (t D : ℚ) (items : List SliceItem) (proc : ℕ) :
    (sliceCore t D items proc).1 = items.map (fun it =>
      (⟨it.name, (arangeQ it.z_min it.z_max t).map
        (fun z => ⟨z, secContours it.sec z⟩)⟩ : SLMPart)) := by
  induction items generalizing proc with
  | nil => rfl
  | cons it rest ih =>
    simp only [sliceCore, List.map_cons]
    rw [ih]

lemma slice_parts (params : SliceParams) (items : List SliceItem) :
    (slice params items).parts = items.map (fun it =>
      (⟨it.name, (arangeQ it.z_min it.z_max params.layer_thickness).map
        (fun z => ⟨z, secContours it.sec z⟩)⟩ : SLMPart)) :=
  sliceCore_parts _ _ items 0

lemma slice_part_get (params : SliceParams) (items : List SliceItem) (i : ℕ)
    (hi : i < items.length) (hp : i < (slice params items).parts.length) :
    (slice params items).parts.get ⟨i, hp⟩ =
      ⟨(items.get ⟨i, hi⟩).name,
        (arangeQ (items.get ⟨i, hi⟩).z_min (items.get ⟨i, hi⟩).z_max
          params.layer_thickness).map
          (fun z => ⟨z, secContours (items.get ⟨i, hi⟩).sec z⟩)⟩ := by
  have h1 : (slice params items).parts[i]? =
      some ((slice params items).parts.get ⟨i, hp⟩) :=
    List.getElem?_eq_getElem hp
  have h2 : (slice params items).parts[i]? =
      some (⟨(items.get ⟨i, hi⟩).name,
        (arangeQ (items.get ⟨i, hi⟩).z_min (items.get ⟨i, hi⟩).z_max
          params.layer_thickness).map
          (fun z => ⟨z, secContours (items.get ⟨i, hi⟩).sec z⟩)⟩ : SLMPart) := by
    rw [slice_parts params items, List.getElem?_map, List.getElem?_eq_getElem hi]
    rfl
  rw [h1] at h2
  exact Option.some_inj.mp h2

/-- C1 is false as stated: for a box mesh of height 5 resting at Z=0 sliced
with layer thickness t = 2, `np.arange(0, 5, 2)` generates 3 heights, so the
part has 3 layers, while the claimed count `max(1, floor(5/2))` is 2. -/
theorem slice_layer_count_claim_false :
    ((slice ⟨2, 200, 1000, 1/10, 67⟩
        [⟨"box", 0, 5, fun _ => Except.ok none⟩]).parts.headD ⟨"", []⟩).layers.length
      = 3 ∧
    ¬ ((slice ⟨2, 200, 1000, 1/10, 67⟩
        [⟨"box", 0, 5, fun _ => Except.ok none⟩]).parts.headD ⟨"", []⟩).layers.length
      = max 1 (⌊((5 : ℚ) - 0) / 2⌋).toNat := by
  have hlen : ((slice ⟨2, 200, 1000, 1/10, 67⟩
      [⟨"box", 0, 5, fun _ => Except.ok none⟩]).parts.headD ⟨"", []⟩).layers.length = 3 := by
    rw [slice_parts]
    simp only [List.map_cons, List.map_nil, List.headD_cons, List.length_map]
    rw [arangeQ_length]
    rw [show ((5 : ℚ) - 0) / 2 = 5 / 2 by norm_num]
    rw [show (⌈(5 : ℚ) / 2⌉) = 3 by rw [Int.ceil_eq_iff] ; norm_num]
    rfl
  refine ⟨hlen, ?_⟩
  rw [hlen]
  rw [show ⌊((5 : ℚ) - 0) / 2⌋ = (2 : ℤ) by norm_num]
  decide

/-- C1 (amended): for every slice run with layer thickness t > 0, the part
produced for item i has exactly `(⌈(z_max - z_min)/t⌉).toNat` layers (the
`np.arange` count: ceiling, not `max(1, floor ...)`; 0 for a degenerate flat
item), and the j-th layer's z_height is `z_min + j*t`; in particular a box
of height H at Z=0 gets `⌈H/t⌉` layers with layer j at `j*t`. -/
theorem slice_layer_count_and_heights (params : SliceParams) (items : List SliceItem)
    (ht : 0 < params.layer_thickness) (i : ℕ) (hi : i < items.length) :
    (slice params items).parts.length = items.length ∧
    ∀ (hp : i < (slice params items).parts.length),
      ((slice params items).parts.get ⟨i, hp⟩).layers.length =
        (⌈((items.get ⟨i, hi⟩).z_max - (items.get ⟨i, hi⟩).z_min) /
          params.layer_thickness⌉).toNat ∧
      ∀ j (hj : j < ((slice params items).parts.get ⟨i, hp⟩).layers.length),
        (((slice params items).parts.get ⟨i, hp⟩).layers.get ⟨j, hj⟩).z_height =
          (items.get ⟨i, hi⟩).z_min + (j : ℚ) * params.layer_thickness := by
  refine ⟨by rw [slice_parts]; simp, ?_⟩
  intro hp
  rw [slice_part_get params items i hi hp]
  refine ⟨by simp [arangeQ_length], ?_⟩
  intro j hj
  simp only [List.length_map] at hj
  simp only [List.get_map]
  exact arangeQ_get _ _ _ j hj

/-- Witness for C1 (amended): one box item of height 5, t = 2: 3 layers at
z = 0, 2, 4. -/
theorem slice_layer_count_and_heights_witness :
    ((0 : ℚ) < (2 : ℚ) ∧ 0 < ([(⟨"box", 0, 5, fun _ => Except.ok none⟩ : SliceItem)]).length) ∧
    ((slice ⟨2, 200, 1000, 1/10, 67⟩
        [⟨"box", 0, 5, fun _ => Except.ok none⟩]).parts.length = 1 ∧
    ∀ (hp : 0 < (slice ⟨2, 200, 1000, 1/10, 67⟩
        [⟨"box", 0, 5, fun _ => Except.ok none⟩]).parts.length),
      ((slice ⟨2, 200, 1000, 1/10, 67⟩
          [⟨"box", 0, 5, fun _ => Except.ok none⟩]).parts.get ⟨0, hp⟩).layers.length =
        (⌈(((5 : ℚ)) - 0) / 2⌉).toNat ∧
      ∀ j (hj : j < ((slice ⟨2, 200, 1000, 1/10, 67⟩
          [⟨"box", 0, 5, fun _ => Except.ok none⟩]).parts.get ⟨0, hp⟩).layers.length),
        (((slice ⟨2, 200, 1000, 1/10, 67⟩
            [⟨"box", 0, 5, fun _ => Except.ok none⟩]).parts.get ⟨0, hp⟩).layers.get
          ⟨j, hj⟩).z_height = 0 + (j : ℚ) * 2) := by
  refine ⟨⟨by norm_num, by decide⟩, ?_⟩
  have h := slice_layer_count_and_heights ⟨2, 200, 1000, 1/10, 67⟩
    [⟨"box", 0, 5, fun _ => Except.ok none⟩] (by norm_num) 0 (by decide)
  exact ⟨by rw [h.1]; rfl, h.2⟩

/-- C4: during a slice run the layer count of each part equals the number of
generated heights whatever the section capability returns — the run is a
total function, so no per-layer sectioning failure can escape it — the j-th
layer always carries z_height `z_min + j*t`, and a height whose section
throws or yields no section still produces its layer, with an empty contour
list. -/
theorem slice_tolerates_section_failure (params : SliceParams)
    (items : List SliceItem) (i : ℕ) (hi : i < items.length) :
    (slice params items).parts.length = items.length ∧
    ∀ (hp : i < (slice params items).parts.length),
      ((slice params items).parts.get ⟨i, hp⟩).layers.length =
        (arangeQ (items.get ⟨i, hi⟩).z_min (items.get ⟨i, hi⟩).z_max
          params.layer_thickness).length ∧
      ∀ j (hj : j < ((slice params items).parts.get ⟨i, hp⟩).layers.length),
        (((slice params items).parts.get ⟨i, hp⟩).layers.get ⟨j, hj⟩).z_height =
          (items.get ⟨i, hi⟩).z_min + (j : ℚ) * params.layer_thickness ∧
        (∀ u, (items.get ⟨i, hi⟩).sec ((items.get ⟨i, hi⟩).z_min +
            (j : ℚ) * params.layer_thickness) = Except.error u →
          (((slice params items).parts.get ⟨i, hp⟩).layers.get ⟨j, hj⟩).contours = []) ∧
        ((items.get ⟨i, hi⟩).sec ((items.get ⟨i, hi⟩).z_min +
            (j : ℚ) * params.layer_thickness) = Except.ok none →
          (((slice params items).parts.get ⟨i, hp⟩).layers.get ⟨j, hj⟩).contours = []) := by
  refine ⟨by rw [slice_parts]; simp, ?_⟩
  intro hp
  rw [slice_part_get params items i hi hp]
  refine ⟨by simp, ?_⟩
  intro j hj
  simp only [List.length_map] at hj
  simp only [List.get_map]
  rw [arangeQ_get _ _ _ j hj]
  refine ⟨rfl, ?_, ?_⟩
  · intro u hu
    simp only [List.get_eq_getElem] at hu
    simp [secContours, hu]
  · intro hu
    simp only [List.get_eq_getElem] at hu
    simp [secContours, hu]

/-- Witness for C4: a one-item run whose section capability always throws
still yields 3 layers with empty contours. -/
theorem slice_tolerates_section_failure_witness :
    (0 < ([(⟨"box", 0, 5, fun _ => Except.error ()⟩ : SliceItem)]).length) ∧
    ((slice ⟨2, 200, 1000, 1/10, 67⟩
        [⟨"box", 0, 5, fun _ => Except.error ()⟩]).parts.length = 1 ∧
    ∀ (hp : 0 < (slice ⟨2, 200, 1000, 1/10, 67⟩
        [⟨"box", 0, 5, fun _ => Except.error ()⟩]).parts.length),
      ((slice ⟨2, 200, 1000, 1/10, 67⟩
          [⟨"box", 0, 5, fun _ => Except.error ()⟩]).parts.get ⟨0, hp⟩).layers.length =
        (arangeQ 0 5 2).length ∧
      ∀ j (hj : j < ((slice ⟨2, 200, 1000, 1/10, 67⟩
          [⟨"box", 0, 5, fun _ => Except.error ()⟩]).parts.get ⟨0, hp⟩).layers.length),
        (((slice ⟨2, 200, 1000, 1/10, 67⟩
            [⟨"box", 0, 5, fun _ => Except.error ()⟩]).parts.get ⟨0, hp⟩).layers.get
          ⟨j, hj⟩).z_height = 0 + (j : ℚ) * 2 ∧
        (∀ u, (fun (_ : ℚ) => (Except.error () : Except Unit (Option (List (List (ℚ × ℚ))))))
            (0 + (j : ℚ) * 2) = Except.error u →
          (((slice ⟨2, 200, 1000, 1/10, 67⟩
              [⟨"box", 0, 5, fun _ => Except.error ()⟩]).parts.get ⟨0, hp⟩).layers.get
            ⟨j, hj⟩).contours = []) ∧
        ((fun (_ : ℚ) => (Except.error () : Except Unit (Option (List (List (ℚ × ℚ))))))
            (0 + (j : ℚ) * 2) = Except.ok none →
          (((slice ⟨2, 200, 1000, 1/10, 67⟩
              [⟨"box", 0, 5, fun _ => Except.error ()⟩]).parts.get ⟨0, hp⟩).layers.get
            ⟨j, hj⟩).contours = [])) := by
  refine ⟨by decide, ?_⟩
  have h := slice_tolerates_section_failure ⟨2, 200, 1000, 1/10, 67⟩
    [⟨"box", 0, 5, fun _ => Except.error ()⟩] 0 (by decide)
  exact ⟨by rw [h.1]; rfl, h.2⟩

/-! ### Export lemmas (C3) -/

lemma countLayerRecs_append (a b : List CLine) :
    countLayerRecs (a ++ b) = countLayerRecs a + countLayerRecs b := by
  simp [countLayerRecs, List.countP_append]

lemma countLayerRecs_polylines (cs : List (List (ℚ × ℚ))) :
    countLayerRecs (cs.filterMap (fun c =>
      if c.isEmpty then none
      else some (CLine.polyline c.length (c.flatMap (fun pt => [pt.1, pt.2]))))) = 0 := by
  refine List.countP_eq_zero.mpr ?_
  intro x hx
  rcases List.mem_filterMap.mp hx with ⟨c, _, heq⟩
  by_cases hc : c.isEmpty
  · rw [if_pos hc] at heq
    exact Option.noConfusion heq
  · rw [if_neg hc] at heq
    cases heq
    simp

lemma countLayerRecs_cons (x : CLine) (l : List CLine) :
    countLayerRecs (x :: l) =
      countLayerRecs l +
        (if (match x with | CLine.layerRec _ => true | _ => false) = true then 1 else 0) := by
  simp [countLayerRecs, List.countP_cons]

lemma countLayerRecs_layers (ls : List Layer) :
    countLayerRecs (ls.flatMap (fun l => CLine.layerRec l.z_height ::
      l.contours.filterMap (fun c =>
        if c.isEmpty then none
        else some (CLine.polyline c.length (c.flatMap (fun pt => [pt.1, pt.2])))))) =
    ls.length := by
  induction ls with
  | nil => rfl
  | cons l rest ih =>
    rw [List.flatMap_cons, countLayerRecs_append, countLayerRecs_cons,
      countLayerRecs_polylines, ih]
    simp
    omega

lemma countLayerRecs_parts (parts : List SLMPart) :
    countLayerRecs (parts.flatMap (fun p => CLine.partComment p.name ::
      p.layers.flatMap (fun l => CLine.layerRec l.z_height ::
        l.contours.filterMap (fun c =>
          if c.isEmpty then none
          else some (CLine.polyline c.length (c.flatMap (fun pt => [pt.1, pt.2]))))))) =
    (parts.map (fun p => p.layers.length)).sum := by
  induction parts with
  | nil => rfl
  | cons p rest ih =>
    rw [List.flatMap_cons, countLayerRecs_append, countLayerRecs_cons,
      countLayerRecs_layers, ih]
    simp

lemma foldl_add_layers (parts : List SLMPart) (n : ℕ) :
    parts.foldl (fun a p => a + p.layers.length) n =
      n + (parts.map (fun p => p.layers.length)).sum := by
  induction parts generalizing n with
  | nil => simp
  | cons p rest ih =>
    rw [List.foldl_cons, ih]
    simp [List.map_cons, List.sum_cons]
    omega

lemma export_cli_ok (parts : List SLMPart) (lt : Option ℚ)
    (h : parts.isEmpty = false) :
    export_cli parts lt = Except.ok
      ((([CLine.headerStart, CLine.asciiTag, CLine.unitsTag] ++
        (match lt with
         | some v => [CLine.layerThickness v]
         | none => []) ++ [CLine.headerEnd]) ++
        parts.flatMap (fun p => CLine.partComment p.name ::
          p.layers.flatMap (fun l => CLine.layerRec l.z_height ::
            l.contours.filterMap (fun c =>
              if c.isEmpty then none
              else some (CLine.polyline c.length
                (c.flatMap (fun pt => [pt.1, pt.2])))))) ++ [CLine.endTag]),
      parts.foldl (fun a p => a + p.layers.length) 0) := by
  simp only [export_cli, h, Bool.false_eq_true, if_false]

/-- C3 is false as stated: a slice run over an empty item list is a slice
run that produced 0 total layers, but export afterwards still raises (no
parts were stored) instead of writing 0 `$$LAYER` records and returning 0. -/
theorem export_cli_claim_false_on_empty_run :
    (slice ⟨3/100, 200, 1000, 1/10, 67⟩ []).total_layers = 0 ∧
    ∀ lines w,
      export_cli (slice ⟨3/100, 200, 1000, 1/10, 67⟩ []).parts
        (some (slice ⟨3/100, 200, 1000, 1/10, 67⟩ []).layer_thickness) ≠
        Except.ok (lines, w) := by
  refine ⟨rfl, ?_⟩
  intro lines w h
  have he : export_cli (slice ⟨3/100, 200, 1000, 1/10, 67⟩ []).parts
      (some (slice ⟨3/100, 200, 1000, 1/10, 67⟩ []).layer_thickness) =
      Except.error "No slice data - run slice() first." := rfl
  rw [he] at h
  exact Except.noConfusion h

/-- C3 (amended): export_cli raises whenever no parts are stored — before
any slice run, and also after a run over an empty item list — and after a
slice run over a nonempty item list that produced k total layers it
returns k and its output contains exactly k `$$LAYER` records. -/
theorem export_cli_layer_records (params : SliceParams) (items : List SliceItem)
    (hne : items ≠ []) :
    (∀ lt, ∃ msg, export_cli [] lt = Except.error msg) ∧
    ∃ lines,
      export_cli (slice params items).parts
          (some (slice params items).layer_thickness) =
        Except.ok (lines, (slice params items).total_layers) ∧
      countLayerRecs lines = (slice params items).total_layers := by
  constructor
  · intro lt
    exact ⟨"No slice data - run slice() first.", rfl⟩
  · have hpne : (slice params items).parts.isEmpty = false := by
      rw [slice_parts]
      cases items with
      | nil => exact absurd rfl hne
      | cons a l => rfl
    have hok := export_cli_ok (slice params items).parts
      (some (slice params items).layer_thickness) hpne
    have htot : (slice params items).parts.foldl
        (fun a p => a + p.layers.length) 0 = (slice params items).total_layers := rfl
    refine ⟨_, by rw [hok, htot], ?_⟩
    rw [countLayerRecs_append, countLayerRecs_append]
    have hhead : countLayerRecs ([CLine.headerStart, CLine.asciiTag, CLine.unitsTag] ++
        (match some (slice params items).layer_thickness with
         | some v => [CLine.layerThickness v]
         | none => []) ++ [CLine.headerEnd]) = 0 := rfl
    have hend : countLayerRecs [CLine.endTag] = 0 := rfl
    rw [hhead, hend, countLayerRecs_parts, ← htot, foldl_add_layers]
    omega

/-- Witness for C3 (amended) at a one-item run producing 3 layers. -/
theorem export_cli_layer_records_witness :
    ([(⟨"box", 0, 5, fun _ => Except.ok none⟩ : SliceItem)] ≠ []) ∧
    ((∀ lt, ∃ msg, export_cli [] lt = Except.error msg) ∧
    ∃ lines,
      export_cli (slice ⟨2, 200, 1000, 1/10, 67⟩
          [⟨"box", 0, 5, fun _ => Except.ok none⟩]).parts
          (some (slice ⟨2, 200, 1000, 1/10, 67⟩
            [⟨"box", 0, 5, fun _ => Except.ok none⟩]).layer_thickness) =
        Except.ok (lines, (slice ⟨2, 200, 1000, 1/10, 67⟩
          [⟨"box", 0, 5, fun _ => Except.ok none⟩]).total_layers) ∧
      countLayerRecs lines = (slice ⟨2, 200, 1000, 1/10, 67⟩
        [⟨"box", 0, 5, fun _ => Except.ok none⟩]).total_layers) :=
  ⟨by simp, export_cli_layer_records _ _ (by simp)⟩

/-! ### Progress-trace lemmas (C5) -/

lemma pairwise_filterMap_of {α β : Type _} (R : α → α → Prop) (S : β → β → Prop)
    (f : α → Option β) (l : List α) (hl : l.Pairwise R)
    (hf : ∀ a b c d, R a b → f a = some c → f b = some d → S c d) :
    (l.filterMap f).Pairwise S := by
  induction l with
  | nil => simp
  | cons a rest ih =>
    rw [List.filterMap_cons]
    rcases List.pairwise_cons.mp hl with ⟨ha, hrest⟩
    cases hfa : f a with
    | none => exact ih hrest
    | some c =>
      refine List.pairwise_cons.mpr ⟨?_, ih hrest⟩
      intro d hd
      rcases List.mem_filterMap.mp hd with ⟨b, hb, hfb⟩
      exact hf a b c d (ha b hb) hfa hfb

lemma layerEmitsOf_mem (D : ℚ) (proc numH : ℕ) (e : Emit)
    (he : e ∈ layerEmitsOf D proc numH) :
    proc + 1 ≤ e.processed ∧ e.processed ≤ proc + numH ∧
      e.frac = (e.processed : ℚ) / D := by
  rcases List.mem_filterMap.mp he with ⟨zi, hzi, heq⟩
  rw [List.mem_range] at hzi
  by_cases h20 : zi % 20 = 0
  · rw [if_pos h20] at heq
    cases heq
    refine ⟨?_, ?_, rfl⟩
    · show proc + 1 ≤ proc + zi + 1
      omega
    · show proc + zi + 1 ≤ proc + numH
      omega
  · rw [if_neg h20] at heq
    exact Option.noConfusion heq

lemma layerEmitsOf_pairwise (D : ℚ) (proc numH : ℕ) :
    (layerEmitsOf D proc numH).Pairwise (fun a b => a.processed ≤ b.processed) := by
  refine pairwise_filterMap_of (· < ·) _ _ _ (List.pairwise_lt_range numH) ?_
  intro a b c d hab hfa hfb
  by_cases ha20 : a % 20 = 0
  · rw [if_pos ha20] at hfa
    by_cases hb20 : b % 20 = 0
    · rw [if_pos hb20] at hfb
      cases hfa
      cases hfb
      simp only
      omega
    · rw [if_neg hb20] at hfb
      exact Option.noConfusion hfb
  · rw [if_neg ha20] at hfa
    exact Option.noConfusion hfa

lemma sliceCore_cons (t D : ℚ) (it : SliceItem) (rest : List SliceItem) (proc : ℕ) :
    sliceCore t D (it :: rest) proc =
      ((⟨it.name, (arangeQ it.z_min it.z_max t).map
          (fun z => ⟨z, secContours it.sec z⟩)⟩ : SLMPart) ::
          (sliceCore t D rest (proc + (arangeQ it.z_min it.z_max t).length)).1,
        (⟨((proc : ℕ) : ℚ) / D, proc⟩ : Emit) ::
          (layerEmitsOf D proc (arangeQ it.z_min it.z_max t).length ++
            (sliceCore t D rest (proc + (arangeQ it.z_min it.z_max t).length)).2.1),
        (sliceCore t D rest (proc + (arangeQ it.z_min it.z_max t).length)).2.2) := rfl

lemma sliceCore_trace_spec (t D : ℚ) (items : List SliceItem) (proc : ℕ) :
    proc ≤ (sliceCore t D items proc).2.2 ∧
    (∀ e ∈ (sliceCore t D items proc).2.1,
      proc ≤ e.processed ∧ e.processed ≤ (sliceCore t D items proc).2.2 ∧
        e.frac = (e.processed : ℚ) / D) ∧
    (sliceCore t D items proc).2.1.Pairwise (fun a b => a.processed ≤ b.processed) := by
  induction items generalizing proc with
  | nil =>
    refine ⟨le_refl _, ?_, ?_⟩
    · intro e he
      simp [sliceCore] at he
    · simp [sliceCore]
  | cons it rest ih =>
    obtain ⟨ih1, ih2, ih3⟩ := ih (proc + (arangeQ it.z_min it.z_max t).length)
    rw [sliceCore_cons]
    dsimp only
    refine ⟨by omega, ?_, ?_⟩
    · intro e he
      rcases List.mem_cons.mp he with he0 | he1
      · subst he0
        refine ⟨le_refl _, ?_, rfl⟩
        show proc ≤ (sliceCore t D rest
          (proc + (arangeQ it.z_min it.z_max t).length)).2.2
        omega
      · rcases List.mem_append.mp he1 with he2 | he3
        · obtain ⟨h1, h2, h3⟩ := layerEmitsOf_mem _ _ _ _ he2
          exact ⟨by omega, by omega, h3⟩
        · obtain ⟨h1, h2, h3⟩ := ih2 e he3
          exact ⟨by omega, h2, h3⟩
    · refine List.pairwise_cons.mpr ⟨?_, ?_⟩
      · intro e he
        show proc ≤ e.processed
        rcases List.mem_append.mp he with he2 | he3
        · have := (layerEmitsOf_mem _ _ _ _ he2).1
          omega
        · have := (ih2 e he3).1
          omega
      · refine List.pairwise_append.mpr ⟨layerEmitsOf_pairwise D proc _, ih3, ?_⟩
        intro a ha b hb
        have h1 := (layerEmitsOf_mem _ _ _ _ ha).2.1
        have h2 := (ih2 b hb).1
        omega

/-- C5 is false as stated: for a single item with Z-range [0, 20.5] and
layer thickness 1 the code expects 20 layers but generates 21; the
zi = 20 emission reports 21/20 > 1 and the final completion emission then
reports 1.0, so the emitted progress sequence decreases. -/
theorem slice_progress_claim_false :
    ¬ List.Chain' (· ≤ ·) ((slice ⟨1, 200, 1000, 1/10, 67⟩
        [⟨"box", 0, 41/2, fun _ => Except.ok none⟩]).trace.map Emit.frac) := by
  intro h
  have hnum : (arangeQ 0 (41/2) 1).length = 21 := by
    rw [arangeQ_length]
    rw [show ((41:ℚ)/2 - 0)/1 = 41/2 by norm_num]
    rw [show (⌈(41:ℚ)/2⌉) = 21 by rw [Int.ceil_eq_iff]; norm_num]
    rfl
  have hexp : totalExpected 1 [⟨"box", 0, 41/2, fun _ => Except.ok none⟩] = 20 := by
    simp only [totalExpected, List.foldl_cons, List.foldl_nil, truncQ]
    rw [if_pos (by norm_num : (0:ℚ) ≤ ((41:ℚ)/2 - 0)/1)]
    rw [show ((41:ℚ)/2 - 0)/1 = (41:ℚ)/2 by norm_num]
    rw [show (⌊(41:ℚ)/2⌋) = 20 by norm_num]
    rfl
  have hr : List.range 21 = [0,1,2,3,4,5,6,7,8,9,10,11,12,13,14,15,16,17,18,19,20] := by rfl
  have htr : (slice ⟨1, 200, 1000, 1/10, 67⟩
      [⟨"box", 0, 41/2, fun _ => Except.ok none⟩]).trace.map Emit.frac =
      [0, 0 / 20, 1 / 20, 21 / 20, 1] := by
    simp only [slice, sliceCore, hexp, hnum]
    norm_num [layerEmitsOf, hr, List.filterMap_cons]
  rw [htr] at h
  norm_num [List.chain'_cons] at h

/-- C5 (amended): within one run, the emitted progress ratios are
non-decreasing up to and including the last mid-run emission; the final
emission always reports exactly 1.0 but may be smaller than the preceding
ratio when the actual layer count exceeds the precomputed expected total;
and the emission order matches layer-production order: the
`processed_layers` counts carried by the trace are non-decreasing across
the whole trace. -/
theorem slice_progress_monotone (params : SliceParams) (items : List SliceItem) :
    List.Chain' (· ≤ ·) (((slice params items).trace.dropLast).map Emit.frac) ∧
    List.Chain' (· ≤ ·) ((slice params items).trace.map Emit.processed) ∧
    ((slice params items).trace.getLast?).map Emit.frac = some 1 := by
  set t := params.layer_thickness with hT
  set D : ℚ := ((max 1 (totalExpected t items) : ℕ) : ℚ) with hD
  have hD0 : (0 : ℚ) < D := by
    rw [hD]
    have h1 : 0 < max 1 (totalExpected t items) := by omega
    exact_mod_cast h1
  obtain ⟨hfin, hmem, hpw⟩ := sliceCore_trace_spec t D items 0
  have htr : (slice params items).trace =
      (⟨0, 0⟩ : Emit) :: ((sliceCore t D items 0).2.1 ++
        [⟨1, (sliceCore t D items 0).2.2⟩]) := rfl
  have hsplit : (⟨0, 0⟩ : Emit) :: ((sliceCore t D items 0).2.1 ++
      [⟨1, (sliceCore t D items 0).2.2⟩]) =
      ((⟨0, 0⟩ : Emit) :: (sliceCore t D items 0).2.1) ++
        [⟨1, (sliceCore t D items 0).2.2⟩] := rfl
  refine ⟨?_, ?_, ?_⟩
  · rw [htr, hsplit, List.dropLast_concat]
    apply List.Pairwise.chain'
    rw [List.pairwise_map]
    refine List.pairwise_cons.mpr ⟨?_, ?_⟩
    · intro e he
      obtain ⟨-, -, hf⟩ := hmem e he
      show (0 : ℚ) ≤ e.frac
      rw [hf]
      exact div_nonneg (Nat.cast_nonneg _) hD0.le
    · refine List.Pairwise.imp_of_mem ?_ hpw
      intro a b ha hb hab
      obtain ⟨-, -, hfa⟩ := hmem a ha
      obtain ⟨-, -, hfb⟩ := hmem b hb
      show a.frac ≤ b.frac
      rw [hfa, hfb]
      exact (div_le_div_right hD0).mpr (by exact_mod_cast hab)
  · rw [htr, hsplit]
    apply List.Pairwise.chain'
    rw [List.pairwise_map]
    refine List.pairwise_append.mpr ⟨?_, by simp, ?_⟩
    · refine List.pairwise_cons.mpr ⟨?_, hpw⟩
      intro e he
      exact (hmem e he).1
    · intro a ha b hb
      have hb1 : b = (⟨1, (sliceCore t D items 0).2.2⟩ : Emit) :=
        List.mem_singleton.mp hb
      subst hb1
      show a.processed ≤ (sliceCore t D items 0).2.2
      rcases List.mem_cons.mp ha with ha0 | ha1
      · subst ha0
        exact Nat.zero_le _
      · exact (hmem a ha1).2.1
  · rw [htr, hsplit, List.getLast?_concat]
    rfl

/-! ### Build-time estimate (C9) -/

/-- C9 is false as stated: the code clamps the average line length from
below at 1 mm (`max(total_area ** 0.5, 1.0)`), the claim's formula uses the
bare square root; they differ on a 0.5mm x 0.5mm footprint (area 1/4,
square root 1/2). -/
theorem estimate_build_time_claim_false :
    ((0 : ℚ) ≤ (1 / 2 : ℚ) ∧ ((1 / 2 : ℚ)) ^ 2 =
      (if ([some ((1 / 2 : ℚ), (1 / 2 : ℚ))] : List (Option (ℚ × ℚ))).isEmpty
       then (2500 : ℚ) else totalAreaOf [some (1 / 2, 1 / 2)])) ∧
    estimate_build_time ⟨1 / 5, 200, 1000, 1 / 10, 67⟩ 1 [some (1 / 2, 1 / 2)] (1 / 2) ≠
      estimateClaimFormula ⟨1 / 5, 200, 1000, 1 / 10, 67⟩ 1 [some (1 / 2, 1 / 2)] (1 / 2) := by
  refine ⟨⟨by norm_num, ?_⟩, ?_⟩
  · norm_num [totalAreaOf]
  · norm_num [estimate_build_time, estimateClaimFormula, totalAreaOf]

/-- C9 (amended): estimate_build_time returns
`((footprint_area / max(hatch_spacing, 0.01)) * max(sqrt(footprint_area), 1)
/ max(scan_speed, 1) + 8) * total_layers / 3600` hours — the claim's formula
with the square-root factor clamped from below at 1 — where footprint_area
is the sum over supplied items of X-extent times Y-extent, or the fallback
constant 2500 mm^2 when no items are supplied. -/
theorem estimate_build_time_formula (params : SliceParams) (total_layers : ℕ)
    (meshes : List (Option (ℚ × ℚ))) (s : ℚ)
    (hs : 0 ≤ s ∧ s ^ 2 =
      (if meshes.isEmpty then (2500 : ℚ) else totalAreaOf meshes)) :
    ((estimate_build_time params total_layers meshes s : ℚ) : ℝ) =
      ((((if meshes.isEmpty then (2500 : ℚ) else totalAreaOf meshes) : ℚ) : ℝ) /
          max ((params.hatch_spacing : ℚ) : ℝ) (1 / 100) *
          max (Real.sqrt
            (((if meshes.isEmpty then (2500 : ℚ) else totalAreaOf meshes) : ℚ) : ℝ)) 1 /
          max ((params.scan_speed : ℚ) : ℝ) 1 + 8) * (total_layers : ℝ) / 3600 := by
  obtain ⟨hs0, hs2⟩ := hs
  have hsq : Real.sqrt
      (((if meshes.isEmpty then (2500 : ℚ) else totalAreaOf meshes) : ℚ) : ℝ) = (s : ℝ) := by
    have hcast : (((if meshes.isEmpty then (2500 : ℚ) else totalAreaOf meshes) : ℚ) : ℝ) =
        ((s : ℝ)) ^ 2 := by
      rw [← hs2]
      push_cast
      ring
    rw [hcast, Real.sqrt_sq (by exact_mod_cast hs0)]
  rw [hsq]
  simp only [estimate_build_time]
  push_cast
  ring

/-- Witness for C9 (amended) at the no-items fallback: area 2500, sqrt 50. -/
theorem estimate_build_time_formula_witness :
    ((0 : ℚ) ≤ (50 : ℚ) ∧ ((50 : ℚ)) ^ 2 =
      (if ([] : List (Option (ℚ × ℚ))).isEmpty then (2500 : ℚ) else totalAreaOf [])) ∧
    ((estimate_build_time ⟨1 / 5, 200, 1000, 1 / 10, 67⟩ 2 [] 50 : ℚ) : ℝ) =
      ((((if ([] : List (Option (ℚ × ℚ))).isEmpty then (2500 : ℚ) else totalAreaOf []) : ℚ) : ℝ) /
          max (((1 / 10 : ℚ) : ℚ) : ℝ) (1 / 100) *
          max (Real.sqrt
            (((if ([] : List (Option (ℚ × ℚ))).isEmpty then (2500 : ℚ) else totalAreaOf []) : ℚ) : ℝ)) 1 /
          max (((1000 : ℚ) : ℚ) : ℝ) 1 + 8) * ((2 : ℕ) : ℝ) / 3600 :=
  ⟨⟨by norm_num, by norm_num⟩,
    estimate_build_time_formula ⟨1 / 5, 200, 1000, 1 / 10, 67⟩ 2 [] 50
      ⟨by norm_num, by norm_num⟩⟩

/-! ### Build-volume validation (C6) -/

/-- Exactness of the rational corner test against the real square root:
`math.sqrt(cx^2 + cy^2) > r` over the reals. -/
lemma sqrtGtR_iff_real (cx cy r : ℚ) :
    sqrtGtR cx cy r = true ↔
      (r : ℝ) < Real.sqrt ((cx : ℝ) ^ 2 + (cy : ℝ) ^ 2) := by
  rw [sqrtGtR, Bool.or_eq_true, decide_eq_true_eq, decide_eq_true_eq]
  constructor
  · rintro (hr | hlt)
    · have h0 : (r : ℝ) < 0 := by exact_mod_cast hr
      exact lt_of_lt_of_le h0 (Real.sqrt_nonneg _)
    · rcases lt_or_le r 0 with hr | hr
      · have h0 : (r : ℝ) < 0 := by exact_mod_cast hr
        exact lt_of_lt_of_le h0 (Real.sqrt_nonneg _)
      · refine (Real.lt_sqrt (by exact_mod_cast hr)).mpr ?_
        push_cast
        exact_mod_cast hlt
  · intro h
    rcases lt_or_le r 0 with hr | hr
    · exact Or.inl hr
    · right
      have h2 := (Real.lt_sqrt (by exact_mod_cast hr : (0 : ℝ) ≤ (r : ℝ))).mp h
      have h3 : ((r ^ 2 : ℚ) : ℝ) < ((cx ^ 2 + cy ^ 2 : ℚ) : ℝ) := by
        push_cast
        exact_mod_cast h2
      exact_mod_cast h3

lemma check_build_volume_step (r : ℚ) (issues : List (ℕ × Violation)) (o : VObj) :
    (if !o.visible then issues
     else (if (cornersXY o).any (fun c => sqrtGtR c.1 c.2 r) then
        issues ++ [(o.uid, Violation.radiusExceeded)] else issues) ++
      (if o.bmin.z < -(1 / 100) then [(o.uid, Violation.belowPlate o.bmin.z)] else [])) =
    issues ++ objIssues r o := by
  rw [objIssues]
  by_cases hv : o.visible
  · simp only [hv, Bool.not_true, Bool.false_eq_true, if_false]
    by_cases hc : (cornersXY o).any (fun c => sqrtGtR c.1 c.2 r)
    · simp only [hc, if_true, List.append_assoc]
    · simp only [hc, Bool.false_eq_true, if_false, List.append_assoc, List.nil_append]
  · simp only [Bool.not_eq_true'] at hv
    simp [hv]

lemma check_build_volume_eq (r : ℚ) (objs : List VObj) :
    check_build_volume r objs = objs.flatMap (objIssues r) := by
  rw [check_build_volume]
  suffices h : ∀ acc : List (ℕ × Violation),
      objs.foldl (fun issues o =>
        if !o.visible then issues
        else (if (cornersXY o).any (fun c => sqrtGtR c.1 c.2 r) then
            issues ++ [(o.uid, Violation.radiusExceeded)] else issues) ++
          (if o.bmin.z < -(1 / 100) then [(o.uid, Violation.belowPlate o.bmin.z)] else []))
        acc = acc ++ objs.flatMap (objIssues r) by
    simpa using h []
  intro acc
  induction objs generalizing acc with
  | nil => simp
  | cons o rest ih =>
    rw [List.foldl_cons, List.flatMap_cons]
    rw [check_build_volume_step r acc o, ih, List.append_assoc]

lemma mem_objIssues (r : ℚ) (o : VObj) (u : ℕ) (v : Violation) :
    (u, v) ∈ objIssues r o ↔
      (u = o.uid ∧ o.visible = true ∧
        ((v = Violation.radiusExceeded ∧
            (cornersXY o).any (fun c => sqrtGtR c.1 c.2 r) = true) ∨
         (v = Violation.belowPlate o.bmin.z ∧ o.bmin.z < -(1 / 100)))) := by
  rw [objIssues]
  by_cases hv : o.visible
  · simp only [hv, Bool.not_true, Bool.false_eq_true, if_false]
    by_cases hc : (cornersXY o).any (fun c => sqrtGtR c.1 c.2 r)
    · by_cases hz : o.bmin.z < -(1 / 100)
      · simp [hc, hz, Prod.ext_iff]
        tauto
      · simp [hc, hz, Prod.ext_iff]
        tauto
    · by_cases hz : o.bmin.z < -(1 / 100)
      · simp [hc, hz, Prod.ext_iff]
        tauto
      · simp [hc, hz, Prod.ext_iff]
        try tauto
  · simp only [Bool.not_eq_true'] at hv
    simp [hv]

/-- C6: check_build_volume reports, for every *visible* object, one
radius entry exactly when one of its 4 horizontal AABB corners satisfies
sqrt(x^2 + y^2) > plate radius (over the reals), and one below-plate entry
exactly when its world minimum Z is below -0.01 mm (both possible, as
separate entries); a visible object with all corners within the radius and
z_min >= -0.01 yields no entry, and invisible objects never yield
entries. -/
theorem check_build_volume_spec (r : ℚ) (objs : List VObj)
    (hn : (objs.map VObj.uid).Nodup) :
    (∀ o ∈ objs, ((o.uid, Violation.radiusExceeded) ∈ check_build_volume r objs ↔
      (o.visible = true ∧ ∃ c ∈ cornersXY o,
        (r : ℝ) < Real.sqrt ((c.1 : ℝ) ^ 2 + (c.2 : ℝ) ^ 2)))) ∧
    (∀ o ∈ objs, ((o.uid, Violation.belowPlate o.bmin.z) ∈ check_build_volume r objs ↔
      (o.visible = true ∧ o.bmin.z < -(1 / 100)))) ∧
    (∀ o ∈ objs, o.visible = false → ∀ v, (o.uid, v) ∉ check_build_volume r objs) ∧
    (∀ o ∈ objs, o.visible = true →
      (∀ c ∈ cornersXY o, Real.sqrt ((c.1 : ℝ) ^ 2 + (c.2 : ℝ) ^ 2) ≤ (r : ℝ)) →
      -(1 / 100) ≤ o.bmin.z → ∀ v, (o.uid, v) ∉ check_build_volume r objs) := by
  have heq := check_build_volume_eq r objs
  have hinj := List.inj_on_of_nodup_map hn
  have hany : ∀ o : VObj, ((cornersXY o).any (fun c => sqrtGtR c.1 c.2 r) = true ↔
      ∃ c ∈ cornersXY o, (r : ℝ) < Real.sqrt ((c.1 : ℝ) ^ 2 + (c.2 : ℝ) ^ 2)) := by
    intro o
    rw [List.any_eq_true]
    constructor
    · rintro ⟨c, hc, hb⟩
      exact ⟨c, hc, (sqrtGtR_iff_real _ _ _).mp hb⟩
    · rintro ⟨c, hc, hb⟩
      exact ⟨c, hc, (sqrtGtR_iff_real _ _ _).mpr hb⟩
  refine ⟨?_, ?_, ?_, ?_⟩
  · intro o ho
    rw [heq, List.mem_flatMap]
    constructor
    · rintro ⟨o2, ho2, hm⟩
      rw [mem_objIssues] at hm
      obtain ⟨hu, hvis, hcase⟩ := hm
      have he : o2 = o := hinj ho2 ho hu.symm
      subst he
      rcases hcase with ⟨-, hc⟩ | ⟨habs, -⟩
      · exact ⟨hvis, (hany o2).mp hc⟩
      · exact absurd habs (by simp)
    · rintro ⟨hvis, hex⟩
      refine ⟨o, ho, ?_⟩
      rw [mem_objIssues]
      exact ⟨rfl, hvis, Or.inl ⟨rfl, (hany o).mpr hex⟩⟩
  · intro o ho
    rw [heq, List.mem_flatMap]
    constructor
    · rintro ⟨o2, ho2, hm⟩
      rw [mem_objIssues] at hm
      obtain ⟨hu, hvis, hcase⟩ := hm
      have he : o2 = o := hinj ho2 ho hu.symm
      subst he
      rcases hcase with ⟨habs, -⟩ | ⟨-, hz⟩
      · exact absurd habs (by simp)
      · exact ⟨hvis, hz⟩
    · rintro ⟨hvis, hz⟩
      refine ⟨o, ho, ?_⟩
      rw [mem_objIssues]
      exact ⟨rfl, hvis, Or.inr ⟨rfl, hz⟩⟩
  · intro o ho hvis v hv
    rw [heq, List.mem_flatMap] at hv
    obtain ⟨o2, ho2, hm⟩ := hv
    rw [mem_objIssues] at hm
    obtain ⟨hu, hvis2, -⟩ := hm
    have he : o2 = o := hinj ho2 ho hu.symm
    subst he
    rw [hvis] at hvis2
    exact Bool.noConfusion hvis2
  · intro o ho hvis hcor hz v hv
    rw [heq, List.mem_flatMap] at hv
    obtain ⟨o2, ho2, hm⟩ := hv
    rw [mem_objIssues] at hm
    obtain ⟨hu, -, hcase⟩ := hm
    have he : o2 = o := hinj ho2 ho hu.symm
    subst he
    rcases hcase with ⟨-, hc⟩ | ⟨-, hzlt⟩
    · obtain ⟨c, hcm, hclt⟩ := (hany o2).mp hc
      exact absurd hclt (not_lt.mpr (hcor c hcm))
    · exact absurd hzlt (not_lt.mpr hz)

/-- Witness for C6: plate radius 60; one visible object far outside, one
visible object inside and resting on the plate, one invisible object. -/
theorem check_build_volume_spec_witness :
    (([(⟨1, "far", true, ⟨100, 0, 0⟩, ⟨110, 5, 5⟩⟩ : VObj),
        ⟨2, "ok", true, ⟨-1, -1, 0⟩, ⟨1, 1, 5⟩⟩,
        ⟨3, "hidden", false, ⟨200, 0, -5⟩, ⟨210, 5, 5⟩⟩].map VObj.uid).Nodup) ∧
    ((∀ o ∈ [(⟨1, "far", true, ⟨100, 0, 0⟩, ⟨110, 5, 5⟩⟩ : VObj),
        ⟨2, "ok", true, ⟨-1, -1, 0⟩, ⟨1, 1, 5⟩⟩,
        ⟨3, "hidden", false, ⟨200, 0, -5⟩, ⟨210, 5, 5⟩⟩],
      ((o.uid, Violation.radiusExceeded) ∈ check_build_volume 60
          [(⟨1, "far", true, ⟨100, 0, 0⟩, ⟨110, 5, 5⟩⟩ : VObj),
            ⟨2, "ok", true, ⟨-1, -1, 0⟩, ⟨1, 1, 5⟩⟩,
            ⟨3, "hidden", false, ⟨200, 0, -5⟩, ⟨210, 5, 5⟩⟩] ↔
        (o.visible = true ∧ ∃ c ∈ cornersXY o,
          ((60 : ℚ) : ℝ) < Real.sqrt ((c.1 : ℝ) ^ 2 + (c.2 : ℝ) ^ 2)))) ∧
    (∀ o ∈ [(⟨1, "far", true, ⟨100, 0, 0⟩, ⟨110, 5, 5⟩⟩ : VObj),
        ⟨2, "ok", true, ⟨-1, -1, 0⟩, ⟨1, 1, 5⟩⟩,
        ⟨3, "hidden", false, ⟨200, 0, -5⟩, ⟨210, 5, 5⟩⟩],
      ((o.uid, Violation.belowPlate o.bmin.z) ∈ check_build_volume 60
          [(⟨1, "far", true, ⟨100, 0, 0⟩, ⟨110, 5, 5⟩⟩ : VObj),
            ⟨2, "ok", true, ⟨-1, -1, 0⟩, ⟨1, 1, 5⟩⟩,
            ⟨3, "hidden", false, ⟨200, 0, -5⟩, ⟨210, 5, 5⟩⟩] ↔
        (o.visible = true ∧ o.bmin.z < -(1 / 100)))) ∧
    (∀ o ∈ [(⟨1, "far", true, ⟨100, 0, 0⟩, ⟨110, 5, 5⟩⟩ : VObj),
        ⟨2, "ok", true, ⟨-1, -1, 0⟩, ⟨1, 1, 5⟩⟩,
        ⟨3, "hidden", false, ⟨200, 0, -5⟩, ⟨210, 5, 5⟩⟩],
      o.visible = false → ∀ v, (o.uid, v) ∉ check_build_volume 60
        [(⟨1, "far", true, ⟨100, 0, 0⟩, ⟨110, 5, 5⟩⟩ : VObj),
          ⟨2, "ok", true, ⟨-1, -1, 0⟩, ⟨1, 1, 5⟩⟩,
          ⟨3, "hidden", false, ⟨200, 0, -5⟩, ⟨210, 5, 5⟩⟩]) ∧
    (∀ o ∈ [(⟨1, "far", true, ⟨100, 0, 0⟩, ⟨110, 5, 5⟩⟩ : VObj),
        ⟨2, "ok", true, ⟨-1, -1, 0⟩, ⟨1, 1, 5⟩⟩,
        ⟨3, "hidden", false, ⟨200, 0, -5⟩, ⟨210, 5, 5⟩⟩],
      o.visible = true →
      (∀ c ∈ cornersXY o, Real.sqrt ((c.1 : ℝ) ^ 2 + (c.2 : ℝ) ^ 2) ≤ ((60 : ℚ) : ℝ)) →
      -(1 / 100) ≤ o.bmin.z → ∀ v, (o.uid, v) ∉ check_build_volume 60
        [(⟨1, "far", true, ⟨100, 0, 0⟩, ⟨110, 5, 5⟩⟩ : VObj),
          ⟨2, "ok", true, ⟨-1, -1, 0⟩, ⟨1, 1, 5⟩⟩,
          ⟨3, "hidden", false, ⟨200, 0, -5⟩, ⟨210, 5, 5⟩⟩])) :=
  ⟨by decide, check_build_volume_spec 60 _ (by decide)⟩

/-! ### Heap-scene lemmas (C7, C10) -/


lemma flag_decomp (g : HObj → HObj) (hg : ∀ o, (g o).uid = o.uid ∧ (g o).name = o.name ∧
    (g o).meshRef = o.meshRef ∧ (g o).tRef = o.tRef ∧ (g o).visible = o.visible ∧
    (g o).source_path = o.source_path) :
    g = fun o => { o with selected := (g o).selected } := by
  funext o
  obtain ⟨h1, h2, h3, h4, h5, h6⟩ := hg o
  cases hgo : g o
  simp only [hgo] at h1 h2 h3 h4 h5 h6
  subst h1 h2 h3 h4 h5 h6
  rfl

lemma hone_flag (u : ℕ) (b : Bool) (o : HObj) :
    ((if o.uid = u then { o with selected := b } else o)).uid = o.uid ∧
    ((if o.uid = u then { o with selected := b } else o)).name = o.name ∧
    ((if o.uid = u then { o with selected := b } else o)).meshRef = o.meshRef ∧
    ((if o.uid = u then { o with selected := b } else o)).tRef = o.tRef ∧
    ((if o.uid = u then { o with selected := b } else o)).visible = o.visible ∧
    ((if o.uid = u then { o with selected := b } else o)).source_path = o.source_path := by
  by_cases h : o.uid = u <;> simp [h]

lemma map_flag_of_decomp (l : List HObj) (g : HObj → HObj)
    (hg : ∀ o, (g o).uid = o.uid ∧ (g o).name = o.name ∧
      (g o).meshRef = o.meshRef ∧ (g o).tRef = o.tRef ∧ (g o).visible = o.visible ∧
      (g o).source_path = o.source_path) :
    l.map g = l.map (fun o => { o with selected := (g o).selected }) := by
  rw [← flag_decomp g hg]

lemma select_shape (s : Scene) (uo : Option ℕ) :
    ∃ f : HObj → Bool,
      select s uo =
        { s with
            objs := s.objs.map (fun o => { o with selected := f o }),
            selection := uo } := by
  unfold select setObj
  rcases hsel : s.selection with _ | prev
  · rcases uo with _ | u
    · refine ⟨fun o => o.selected, ?_⟩
      simp only
      rw [show (fun (o : HObj) => { o with selected := o.selected }) = fun o => o from rfl,
        List.map_id']
    · by_cases h : (findObj { s with selection := some u } u).isSome
      · refine ⟨fun o => (if o.uid = u then { o with selected := true } else o).selected, ?_⟩
        simp only [h, if_true]
        rw [map_flag_of_decomp s.objs _ (hone_flag u true)]
      · refine ⟨fun o => o.selected, ?_⟩
        simp only [h, Bool.false_eq_true, if_false]
        rw [show (fun (o : HObj) => { o with selected := o.selected }) = fun o => o from rfl,
          List.map_id']
  · by_cases h1 : (findObj s prev).isSome
    · simp only [h1, if_true]
      rcases uo with _ | u
      · refine ⟨fun o => (if o.uid = prev then { o with selected := false } else o).selected, ?_⟩
        simp only
        rw [map_flag_of_decomp s.objs _ (hone_flag prev false)]
      · set g1 : HObj → HObj :=
          fun o => if o.uid = prev then { o with selected := false } else o with hg1
        set g2 : HObj → HObj :=
          fun o => if o.uid = u then { o with selected := true } else o with hg2
        have hcomp : ∀ o : HObj, ((g2 ∘ g1) o).uid = o.uid ∧ ((g2 ∘ g1) o).name = o.name ∧
            ((g2 ∘ g1) o).meshRef = o.meshRef ∧ ((g2 ∘ g1) o).tRef = o.tRef ∧
            ((g2 ∘ g1) o).visible = o.visible ∧ ((g2 ∘ g1) o).source_path = o.source_path := by
          intro o
          obtain ⟨a1, a2, a3, a4, a5, a6⟩ := hone_flag prev false o
          obtain ⟨b1, b2, b3, b4, b5, b6⟩ := hone_flag u true (g1 o)
          exact ⟨b1.trans a1, b2.trans a2, b3.trans a3, b4.trans a4, b5.trans a5, b6.trans a6⟩
        by_cases h2 : (findObj { s with objs := s.objs.map g1, selection := some u } u).isSome
        · refine ⟨fun o => ((g2 ∘ g1) o).selected, ?_⟩
          simp only [h2, if_true]
          rw [List.map_map, map_flag_of_decomp s.objs _ hcomp]
        · refine ⟨fun o => (g1 o).selected, ?_⟩
          simp only [h2, Bool.false_eq_true, if_false]
          rw [map_flag_of_decomp s.objs _ (hone_flag prev false)]
    · simp only [h1, Bool.false_eq_true, if_false]
      rcases uo with _ | u
      · refine ⟨fun o => o.selected, ?_⟩
        simp only
        rw [show (fun (o : HObj) => { o with selected := o.selected }) = fun o => o from rfl,
          List.map_id']
      · by_cases h2 : (findObj { s with selection := some u } u).isSome
        · refine ⟨fun o => (if o.uid = u then { o with selected := true } else o).selected, ?_⟩
          simp only [h2, if_true]
          rw [map_flag_of_decomp s.objs _ (hone_flag u true)]
        · refine ⟨fun o => o.selected, ?_⟩
          simp only [h2, Bool.false_eq_true, if_false]
          rw [show (fun (o : HObj) => { o with selected := o.selected }) = fun o => o from rfl,
            List.map_id']



lemma getD_set_self {α : Type _} (l : List α) (i : ℕ) (a d : α) (h : i < l.length) :
    (l.set i a).getD i d = a := by
  rw [List.getD_eq_getElem?_getD, List.getElem?_set_self (by simpa using h)]
  rfl

lemma getD_set_ne {α : Type _} (l : List α) (i j : ℕ) (a d : α) (h : i ≠ j) :
    (l.set i a).getD j d = l.getD j d := by
  rw [List.getD_eq_getElem?_getD, List.getElem?_set_ne h, ← List.getD_eq_getElem?_getD]

lemma getD_append_left {α : Type _} (l1 l2 : List α) (i : ℕ) (d : α) (h : i < l1.length) :
    (l1 ++ l2).getD i d = l1.getD i d := by
  rw [List.getD_eq_getElem?_getD, List.getElem?_append_left h, ← List.getD_eq_getElem?_getD]

lemma getD_append_self {α : Type _} (l : List α) (a d : α) :
    (l ++ [a]).getD l.length d = a := by
  rw [List.getD_eq_getElem?_getD, List.getElem?_append_right (le_refl _)]
  simp

lemma find?_map_uidpres (l : List HObj) (u : ℕ) (h : HObj → HObj)
    (hh : ∀ o, (h o).uid = o.uid) :
    (l.map h).find? (fun o => o.uid = u) = (l.find? (fun o => o.uid = u)).map h := by
  induction l with
  | nil => rfl
  | cons o rest ih =>
    rw [List.map_cons]
    by_cases hu : o.uid = u
    · rw [List.find?_cons_of_pos _ (by simp [hh, hu]), List.find?_cons_of_pos _ (by simp [hu])]
      rfl
    · rw [List.find?_cons_of_neg _ (by simp [hh, hu]), List.find?_cons_of_neg _ (by simp [hu]),
        ih]

lemma find?_append_of_none {α : Type _} (p : α → Bool) (l1 l2 : List α)
    (h : l1.find? p = none) : (l1 ++ l2).find? p = l2.find? p := by
  rw [List.find?_append, h]
  rfl

/-- C10: add_mesh mutates its mesh argument in place — the centering and
drop-to-plate translations are applied to the caller's mesh cell, the
stored object references that very same cell (no new mesh cell is
allocated), and afterwards the caller's mesh has XY centroid (0,0) and
minimum Z equal to 0; the new object is returned selected. -/
theorem add_mesh_spec (s : Scene) (name : String) (mref : ℕ) (sp : String)
    (hm : mref < s.mcells.length)
    (hfresh : ∀ o ∈ s.objs, o.uid < s.nextUid) :
    (add_mesh s name mref sp).2 = s.nextUid ∧
    (getM (add_mesh s name mref sp).1 mref).centroid.x = 0 ∧
    (getM (add_mesh s name mref sp).1 mref).centroid.y = 0 ∧
    (getM (add_mesh s name mref sp).1 mref).bmin.z = 0 ∧
    (add_mesh s name mref sp).1.mcells.length = s.mcells.length ∧
    ∃ obj, findObj (add_mesh s name mref sp).1 s.nextUid = some obj ∧
      obj.meshRef = mref ∧ obj.tRef = s.tcells.length := by
  set m := getM s mref with hmdef
  set m2 := (m.translate (Vec3.neg m.centroid)).translate
    ⟨0, 0, -((m.translate (Vec3.neg m.centroid)).bmin.z)⟩ with hm2
  set obj0 : HObj := ⟨s.nextUid, name, mref, s.tcells.length, true, false, sp⟩ with hobj0
  set s1 : Scene :=
    { s with
        mcells := s.mcells.set mref m2
        tcells := s.tcells ++ [Transform.default]
        objs := s.objs ++ [obj0]
        nextUid := s.nextUid + 1 } with hs1
  obtain ⟨f, hsel⟩ := select_shape s1 (some s.nextUid)
  have hstep : add_mesh s name mref sp =
      (if sp ≠ "" then
        { select s1 (some s.nextUid) with
            recent := addRecent (select s1 (some s.nextUid)).recent sp }
       else select s1 (some s.nextUid), s.nextUid) := rfl
  have hmc : (add_mesh s name mref sp).1.mcells = s.mcells.set mref m2 := by
    rw [hstep]
    split
    · show (select s1 (some s.nextUid)).mcells = s.mcells.set mref m2
      rw [hsel]
    · show (select s1 (some s.nextUid)).mcells = s.mcells.set mref m2
      rw [hsel]
  have hobjs : (add_mesh s name mref sp).1.objs =
      (s.objs ++ [obj0]).map (fun o => { o with selected := f o }) := by
    rw [hstep]
    split
    · show (select s1 (some s.nextUid)).objs =
        (s.objs ++ [obj0]).map (fun o => { o with selected := f o })
      rw [hsel]
    · show (select s1 (some s.nextUid)).objs =
        (s.objs ++ [obj0]).map (fun o => { o with selected := f o })
      rw [hsel]
  have hgm : getM (add_mesh s name mref sp).1 mref = m2 := by
    rw [getM, hmc]
    exact getD_set_self _ _ _ _ hm
  refine ⟨rfl, ?_, ?_, ?_, ?_, ?_⟩
  · rw [hgm, hm2]
    show m.centroid.x + -m.centroid.x + 0 = 0
    ring
  · rw [hgm, hm2]
    show m.centroid.y + -m.centroid.y + 0 = 0
    ring
  · rw [hgm, hm2]
    show m.bmin.z + -m.centroid.z + -(m.bmin.z + -m.centroid.z) = 0
    ring
  · rw [hmc, List.length_set]
  · refine ⟨{ obj0 with selected := f obj0 }, ?_, rfl, rfl⟩
    rw [findObj, hobjs,
      find?_map_uidpres (s.objs ++ [obj0]) s.nextUid
        (fun o => { o with selected := f o }) (fun o => rfl)]
    rw [find?_append_of_none _ _ _ (List.find?_eq_none.mpr ?_)]
    · rw [List.find?_cons_of_pos _ (by simp [hobj0])]
      rfl
    · intro x hx
      have := hfresh x hx
      simp only [decide_eq_true_eq]
      omega

/-- Witness for C10: a scene holding one mesh cell and no objects. -/
theorem add_mesh_spec_witness :
    ((0 : ℕ) < ([(⟨⟨1, 2, 3⟩, ⟨0, 1, 1⟩, ⟨2, 3, 5⟩⟩ : MeshA)]).length ∧
      (∀ o ∈ ([] : List HObj), o.uid < 0)) ∧
    ((add_mesh ⟨[⟨⟨1, 2, 3⟩, ⟨0, 1, 1⟩, ⟨2, 3, 5⟩⟩], [], [], none, 0, []⟩
        "box" 0 "a.stl").2 = 0 ∧
    (getM (add_mesh ⟨[⟨⟨1, 2, 3⟩, ⟨0, 1, 1⟩, ⟨2, 3, 5⟩⟩], [], [], none, 0, []⟩
        "box" 0 "a.stl").1 0).centroid.x = 0 ∧
    (getM (add_mesh ⟨[⟨⟨1, 2, 3⟩, ⟨0, 1, 1⟩, ⟨2, 3, 5⟩⟩], [], [], none, 0, []⟩
        "box" 0 "a.stl").1 0).centroid.y = 0 ∧
    (getM (add_mesh ⟨[⟨⟨1, 2, 3⟩, ⟨0, 1, 1⟩, ⟨2, 3, 5⟩⟩], [], [], none, 0, []⟩
        "box" 0 "a.stl").1 0).bmin.z = 0 ∧
    (add_mesh ⟨[⟨⟨1, 2, 3⟩, ⟨0, 1, 1⟩, ⟨2, 3, 5⟩⟩], [], [], none, 0, []⟩
        "box" 0 "a.stl").1.mcells.length =
      ([(⟨⟨1, 2, 3⟩, ⟨0, 1, 1⟩, ⟨2, 3, 5⟩⟩ : MeshA)]).length ∧
    ∃ obj, findObj (add_mesh ⟨[⟨⟨1, 2, 3⟩, ⟨0, 1, 1⟩, ⟨2, 3, 5⟩⟩], [], [], none, 0, []⟩
        "box" 0 "a.stl").1 0 = some obj ∧
      obj.meshRef = 0 ∧ obj.tRef = ([] : List Transform).length) :=
  ⟨⟨by decide, by simp⟩,
    add_mesh_spec ⟨[⟨⟨1, 2, 3⟩, ⟨0, 1, 1⟩, ⟨2, 3, 5⟩⟩], [], [], none, 0, []⟩
      "box" 0 "a.stl" (by decide) (by simp)⟩


lemma sameCore_refl (o : HObj) : sameCore o o := ⟨rfl, rfl, rfl, rfl, rfl, rfl⟩

lemma sameCore_trans (a b c : HObj) (h1 : sameCore a b) (h2 : sameCore b c) :
    sameCore a c := by
  obtain ⟨a1, a2, a3, a4, a5, a6⟩ := h1
  obtain ⟨b1, b2, b3, b4, b5, b6⟩ := h2
  exact ⟨a1.trans b1, a2.trans b2, a3.trans b3, a4.trans b4, a5.trans b5, a6.trans b6⟩

lemma setObj_find (s : Scene) (x u : ℕ) (fn : HObj → HObj)
    (hfn : ∀ o, (fn o).uid = o.uid) :
    findObj (setObj s x fn) u =
      (findObj s u).map (fun o => if o.uid = x then fn o else o) := by
  have hg : ∀ o : HObj, ((fun o => if o.uid = x then fn o else o) o).uid = o.uid := by
    intro o
    by_cases ho : o.uid = x
    · simp [ho, hfn]
    · simp [ho]
  simp only [findObj, setObj]
  exact find?_map_uidpres s.objs u _ hg

lemma select_found (s : Scene) (u : ℕ) (o0 : HObj) (h0 : findObj s u = some o0) :
    ∃ cpy, findObj (select s (some u)) u = some cpy ∧
      cpy.selected = true ∧ sameCore cpy o0 := by
  have huid : o0.uid = u := by
    rw [findObj] at h0
    simpa using List.find?_some h0
  unfold select
  rcases hsel : s.selection with _ | prev
  · by_cases h2 : (findObj { s with selection := some u } u).isSome
    · simp only [h2, if_true]
      refine ⟨{ o0 with selected := true }, ?_, rfl, by simp [sameCore]⟩
      rw [setObj_find _ u u (fun o => { o with selected := true }) (fun o => rfl),
        show findObj { s with selection := some u } u = some o0 from h0]
      simp [huid]
    · exfalso
      apply h2
      rw [show findObj { s with selection := some u } u = some o0 from h0]
      rfl
  · by_cases h1 : (findObj s prev).isSome
    · simp only [h1, if_true]
      have hf1 : findObj { setObj s prev (fun o => { o with selected := false })
          with selection := some u } u =
          some (if o0.uid = prev then { o0 with selected := false } else o0) := by
        rw [show findObj { setObj s prev (fun o => { o with selected := false })
              with selection := some u } u =
            findObj (setObj s prev (fun o => { o with selected := false })) u from rfl,
          setObj_find _ prev u (fun o => { o with selected := false }) (fun o => rfl), h0]
        rfl
      by_cases h2 : (findObj { setObj s prev (fun o => { o with selected := false })
          with selection := some u } u).isSome
      · simp only [h2, if_true]
        refine ⟨{ (if o0.uid = prev then { o0 with selected := false } else o0) with
            selected := true }, ?_, rfl, ?_⟩
        · rw [setObj_find _ u u (fun o => { o with selected := true }) (fun o => rfl), hf1]
          have : (if o0.uid = prev then { o0 with selected := false } else o0).uid = u := by
            by_cases hp : o0.uid = prev
            · rw [if_pos hp]
              exact huid
            · rw [if_neg hp]
              exact huid
          simp [this]
        · refine sameCore_trans _
            (if o0.uid = prev then { o0 with selected := false } else o0) _ ?_ ?_
          · by_cases hp : o0.uid = prev <;> simp [hp, sameCore]
          · by_cases hp : o0.uid = prev <;> simp [hp, sameCore]
      · exfalso
        apply h2
        rw [hf1]
        rfl
    · simp only [h1, Bool.false_eq_true, if_false]
      by_cases h2 : (findObj { s with selection := some u } u).isSome
      · simp only [h2, if_true]
        refine ⟨{ o0 with selected := true }, ?_, rfl, by simp [sameCore]⟩
        rw [setObj_find _ u u (fun o => { o with selected := true }) (fun o => rfl),
          show findObj { s with selection := some u } u = some o0 from h0]
        simp [huid]
      · exfalso
        apply h2
        rw [show findObj { s with selection := some u } u = some o0 from h0]
        rfl

/-- C7: `duplicate` returns `None` and leaves the scene unchanged for an
unknown id; for a known id it deep-copies the source's mesh and transform
into fresh cells, the default offset places the copy at `+1.2 ×` the
source's X-extent along +X relative to the source (rotation and scale
copied unchanged), the copy becomes the selection (found selected in the
scene), and the copy's transform is independent of the source's: mutating
the copy's scale never alters the source's scale. -/
theorem duplicate_spec (s : Scene) (uid : ℕ) (hwf : SceneWF s) :
    (findObj s uid = none → duplicate s uid none = (s, none)) ∧
    ∀ src, findObj s uid = some src →
      ∃ s2, duplicate s uid none = (s2, some s.nextUid) ∧
        s2.mcells.length = s.mcells.length + 1 ∧
        getM s2 s.mcells.length = getM s src.meshRef ∧
        getT s2 s.tcells.length =
          { getT s src.tRef with
              translation := (getT s src.tRef).translation +
                ⟨(getM s src.meshRef).extentsX * (6 / 5), 0, 0⟩ } ∧
        s2.selection = some s.nextUid ∧
        (∃ cpy, findObj s2 s.nextUid = some cpy ∧ cpy.selected = true ∧
          cpy.name = src.name ++ "_copy" ∧
          cpy.meshRef = s.mcells.length ∧ cpy.tRef = s.tcells.length) ∧
        ∀ v, scaleOf (set_scale s2 s.nextUid v) uid = scaleOf s uid := by
  constructor
  · intro hnone
    rw [duplicate, hnone]
  · intro src hfind
    set newT : Transform :=
      { getT s src.tRef with
          translation := (getT s src.tRef).translation +
            ⟨(getM s src.meshRef).extentsX * (6 / 5), 0, 0⟩ } with hnewT
    set obj0 : HObj :=
      ⟨s.nextUid, src.name ++ "_copy", s.mcells.length, s.tcells.length, true, false,
        src.source_path⟩ with hobj0
    set s1 : Scene :=
      { s with
          mcells := s.mcells ++ [getM s src.meshRef]
          tcells := s.tcells ++ [newT]
          objs := s.objs ++ [obj0]
          nextUid := s.nextUid + 1 } with hs1
    have hstep : duplicate s uid none = (select s1 (some s.nextUid), some s.nextUid) := by
      rw [duplicate, hfind]
      rfl
    obtain ⟨f, hsel⟩ := select_shape s1 (some s.nextUid)
    have hfo : findObj s1 s.nextUid = some obj0 := by
      rw [findObj]
      show (s.objs ++ [obj0]).find? (fun o => o.uid = s.nextUid) = some obj0
      rw [find?_append_of_none _ _ _ (List.find?_eq_none.mpr ?_)]
      · rw [List.find?_cons_of_pos _ (by simp [hobj0])]
      · intro x hx
        have := hwf.2.2 x hx
        simp only [decide_eq_true_eq]
        omega
    obtain ⟨cpy, hc1, hc2, hc3⟩ := select_found s1 s.nextUid obj0 hfo
    have hsrcmem : src ∈ s.objs := by
      rw [findObj] at hfind
      exact List.mem_of_find?_eq_some hfind
    have htR : src.tRef < s.tcells.length := (hwf.1 src hsrcmem).1
    have hct : cpy.tRef = s.tcells.length := hc3.2.2.2.1
    refine ⟨select s1 (some s.nextUid), hstep, ?_, ?_, ?_, ?_, ?_, ?_⟩
    · rw [hsel]
      show (s.mcells ++ [getM s src.meshRef]).length = s.mcells.length + 1
      simp
    · rw [getM, hsel]
      show (s.mcells ++ [getM s src.meshRef]).getD s.mcells.length defaultMesh =
        getM s src.meshRef
      exact getD_append_self _ _ _
    · rw [getT, hsel]
      show (s.tcells ++ [newT]).getD s.tcells.length Transform.default = newT
      exact getD_append_self _ _ _
    · rw [hsel]
    · exact ⟨cpy, hc1, hc2, hc3.2.1, hc3.2.2.1, hct⟩
    · intro v
      have hfsrc : findObj (select s1 (some s.nextUid)) uid =
          some { src with selected := f src } := by
        rw [findObj, hsel]
        show ((s.objs ++ [obj0]).map
            (fun o => { o with selected := f o })).find? (fun o => o.uid = uid) = _
        rw [find?_map_uidpres (s.objs ++ [obj0]) uid (fun o => { o with selected := f o }) (fun o => rfl), List.find?_append,
          show s.objs.find? (fun o => decide (o.uid = uid)) = some src from hfind]
        rfl
      have hX : findObj (set_scale (select s1 (some s.nextUid)) s.nextUid v) uid =
          some { src with selected := f src } := by
        rw [set_scale, hc1]
        exact hfsrc
      simp only [scaleOf, hX, hfind]
      rw [set_scale, hc1]
      show (((select s1 (some s.nextUid)).tcells.set cpy.tRef
          { getT (select s1 (some s.nextUid)) cpy.tRef with scale := v }).getD
          src.tRef Transform.default).scale =
        (s.tcells.getD src.tRef Transform.default).scale
      rw [show (select s1 (some s.nextUid)).tcells = s.tcells ++ [newT] by rw [hsel]]
      rw [getD_set_ne _ _ _ _ _ (by rw [hct]; omega)]
      rw [getD_append_left _ _ _ _ htR]

/-- Witness for C7: a scene with one well-formed object, duplicated. -/
theorem duplicate_spec_witness :
    SceneWF ⟨[⟨⟨1, 2, 3⟩, ⟨0, 1, 1⟩, ⟨2, 3, 5⟩⟩], [Transform.default],
        [⟨5, "box", 0, 0, true, false, "a.stl"⟩], none, 7, []⟩ ∧
    (findObj ⟨[⟨⟨1, 2, 3⟩, ⟨0, 1, 1⟩, ⟨2, 3, 5⟩⟩], [Transform.default],
        [⟨5, "box", 0, 0, true, false, "a.stl"⟩], none, 7, []⟩ 5 = none →
      duplicate ⟨[⟨⟨1, 2, 3⟩, ⟨0, 1, 1⟩, ⟨2, 3, 5⟩⟩], [Transform.default],
        [⟨5, "box", 0, 0, true, false, "a.stl"⟩], none, 7, []⟩ 5 none =
        (⟨[⟨⟨1, 2, 3⟩, ⟨0, 1, 1⟩, ⟨2, 3, 5⟩⟩], [Transform.default],
          [⟨5, "box", 0, 0, true, false, "a.stl"⟩], none, 7, []⟩, none)) ∧
    ∀ src, findObj ⟨[⟨⟨1, 2, 3⟩, ⟨0, 1, 1⟩, ⟨2, 3, 5⟩⟩], [Transform.default],
        [⟨5, "box", 0, 0, true, false, "a.stl"⟩], none, 7, []⟩ 5 = some src →
      ∃ s2, duplicate ⟨[⟨⟨1, 2, 3⟩, ⟨0, 1, 1⟩, ⟨2, 3, 5⟩⟩], [Transform.default],
          [⟨5, "box", 0, 0, true, false, "a.stl"⟩], none, 7, []⟩ 5 none = (s2, some 7) ∧
        s2.mcells.length = 2 ∧
        getM s2 1 = getM ⟨[⟨⟨1, 2, 3⟩, ⟨0, 1, 1⟩, ⟨2, 3, 5⟩⟩], [Transform.default],
          [⟨5, "box", 0, 0, true, false, "a.stl"⟩], none, 7, []⟩ src.meshRef ∧
        getT s2 1 =
          { getT ⟨[⟨⟨1, 2, 3⟩, ⟨0, 1, 1⟩, ⟨2, 3, 5⟩⟩], [Transform.default],
              [⟨5, "box", 0, 0, true, false, "a.stl"⟩], none, 7, []⟩ src.tRef with
              translation := (getT ⟨[⟨⟨1, 2, 3⟩, ⟨0, 1, 1⟩, ⟨2, 3, 5⟩⟩],
                  [Transform.default], [⟨5, "box", 0, 0, true, false, "a.stl"⟩],
                  none, 7, []⟩ src.tRef).translation +
                ⟨(getM ⟨[⟨⟨1, 2, 3⟩, ⟨0, 1, 1⟩, ⟨2, 3, 5⟩⟩], [Transform.default],
                  [⟨5, "box", 0, 0, true, false, "a.stl"⟩], none, 7, []⟩
                    src.meshRef).extentsX * (6 / 5), 0, 0⟩ } ∧
        s2.selection = some 7 ∧
        (∃ cpy, findObj s2 7 = some cpy ∧ cpy.selected = true ∧
          cpy.name = src.name ++ "_copy" ∧ cpy.meshRef = 1 ∧ cpy.tRef = 1) ∧
        ∀ v, scaleOf (set_scale s2 7 v) 5 =
          scaleOf ⟨[⟨⟨1, 2, 3⟩, ⟨0, 1, 1⟩, ⟨2, 3, 5⟩⟩], [Transform.default],
            [⟨5, "box", 0, 0, true, false, "a.stl"⟩], none, 7, []⟩ 5 :=
  ⟨⟨by decide, by decide, by decide⟩,
    duplicate_spec ⟨[⟨⟨1, 2, 3⟩, ⟨0, 1, 1⟩, ⟨2, 3, 5⟩⟩], [Transform.default],
        [⟨5, "box", 0, 0, true, false, "a.stl"⟩], none, 7, []⟩ 5
      ⟨by decide, by decide, by decide⟩⟩


lemma foldl_min_le_init (l : List ℚ) : ∀ a : ℚ, l.foldl min a ≤ a := by
  induction l with
  | nil => intro a; exact le_refl a
  | cons b t ih => intro a; exact (ih (min a b)).trans (min_le_left a b)

lemma foldl_min_le_mem (l : List ℚ) : ∀ (a x : ℚ), x ∈ l → l.foldl min a ≤ x := by
  induction l with
  | nil =>
    intro a x hx
    cases hx
  | cons b t ih =>
    intro a x hx
    rcases List.mem_cons.mp hx with rfl | hx
    · exact (foldl_min_le_init t (min a x)).trans (min_le_right a x)
    · exact ih (min a b) x hx

lemma foldl_min_mem (l : List ℚ) : ∀ a : ℚ, l.foldl min a = a ∨ l.foldl min a ∈ l := by
  induction l with
  | nil =>
    intro a
    exact Or.inl rfl
  | cons b t ih =>
    intro a
    rw [List.foldl_cons]
    rcases ih (min a b) with h | h
    · rcases le_total a b with hab | hab
      · exact Or.inl (h.trans (min_eq_left hab))
      · refine Or.inr ?_
        rw [h.trans (min_eq_right hab)]
        exact List.mem_cons_self b t
    · exact Or.inr (List.mem_cons_of_mem b h)

lemma foldl_max_ge_init (l : List ℚ) : ∀ a : ℚ, a ≤ l.foldl max a := by
  induction l with
  | nil => intro a; exact le_refl a
  | cons b t ih => intro a; exact (le_max_left a b).trans (ih (max a b))

lemma foldl_max_ge_mem (l : List ℚ) : ∀ (a x : ℚ), x ∈ l → x ≤ l.foldl max a := by
  induction l with
  | nil =>
    intro a x hx
    cases hx
  | cons b t ih =>
    intro a x hx
    rcases List.mem_cons.mp hx with rfl | hx
    · exact (le_max_right a x).trans (foldl_max_ge_init t (max a x))
    · exact ih (max a b) x hx

lemma foldl_max_mem (l : List ℚ) : ∀ a : ℚ, l.foldl max a = a ∨ l.foldl max a ∈ l := by
  induction l with
  | nil =>
    intro a
    exact Or.inl rfl
  | cons b t ih =>
    intro a
    rw [List.foldl_cons]
    rcases ih (max a b) with h | h
    · rcases le_total a b with hab | hab
      · refine Or.inr ?_
        rw [h.trans (max_eq_right hab)]
        exact List.mem_cons_self b t
      · exact Or.inl (h.trans (max_eq_left hab))
    · exact Or.inr (List.mem_cons_of_mem b h)

lemma qmin_eq_of (l : List ℚ) (v : ℚ) (hmem : v ∈ l) (hlb : ∀ x ∈ l, v ≤ x) :
    qmin l = v := by
  rcases l with _ | ⟨a, t⟩
  · cases hmem
  · show t.foldl min a = v
    refine le_antisymm ?_ ?_
    · rcases List.mem_cons.mp hmem with rfl | hv
      · exact foldl_min_le_init t v
      · exact foldl_min_le_mem t a v hv
    · rcases foldl_min_mem t a with h | h
      · rw [h]
        exact hlb a (List.mem_cons_self a t)
      · exact hlb _ (List.mem_cons_of_mem a h)

lemma qmax_eq_of (l : List ℚ) (v : ℚ) (hmem : v ∈ l) (hub : ∀ x ∈ l, x ≤ v) :
    qmax l = v := by
  rcases l with _ | ⟨a, t⟩
  · cases hmem
  · show t.foldl max a = v
    refine le_antisymm ?_ ?_
    · rcases foldl_max_mem t a with h | h
      · rw [h]
        exact hub a (List.mem_cons_self a t)
      · exact hub _ (List.mem_cons_of_mem a h)
    · rcases List.mem_cons.mp hmem with rfl | hv
      · exact foldl_max_ge_init t v
      · exact foldl_max_ge_mem t a v hv

lemma ceilSqrt_le (n : ℕ) (h : 1 ≤ n) : ceilSqrt n ≤ n := by
  rw [ceilSqrt]
  split
  · exact Nat.sqrt_le_self n
  · next hsq =>
    rcases Nat.lt_or_ge n 2 with h2 | h2
    · exfalso
      apply hsq
      have hn1 : n = 1 := by omega
      subst hn1
      simp
    · have := Nat.sqrt_lt_self (show 1 < n by omega)
      omega

lemma midspan_gridX (cols n : ℕ) (s : ℚ) (hs : 0 ≤ s) (h1 : 1 ≤ cols) (hcn : cols ≤ n) :
    midspan ((List.range n).map (fun k => arrangePosX cols s k)) = 0 := by
  have hlb : ∀ x ∈ (List.range n).map (fun k => arrangePosX cols s k),
      (0 - ((cols : ℚ) - 1) / 2) * s ≤ x := by
    intro x hx
    obtain ⟨k, hk, rfl⟩ := List.mem_map.mp hx
    rw [arrangePosX]
    apply mul_le_mul_of_nonneg_right _ hs
    exact sub_le_sub_right (Nat.cast_nonneg _) _
  have hub : ∀ x ∈ (List.range n).map (fun k => arrangePosX cols s k),
      x ≤ (((cols : ℚ) - 1) - ((cols : ℚ) - 1) / 2) * s := by
    intro x hx
    obtain ⟨k, hk, rfl⟩ := List.mem_map.mp hx
    rw [arrangePosX]
    apply mul_le_mul_of_nonneg_right _ hs
    apply sub_le_sub_right
    have hmod : k % cols ≤ cols - 1 := by
      have := Nat.mod_lt k (show 0 < cols by omega)
      omega
    calc ((k % cols : ℕ) : ℚ) ≤ ((cols - 1 : ℕ) : ℚ) := by exact_mod_cast hmod
      _ = (cols : ℚ) - 1 := by rw [Nat.cast_sub h1, Nat.cast_one]
  have hmem0 : (0 - ((cols : ℚ) - 1) / 2) * s ∈
      (List.range n).map (fun k => arrangePosX cols s k) := by
    have he : arrangePosX cols s 0 = (0 - ((cols : ℚ) - 1) / 2) * s := by
      rw [arrangePosX, Nat.zero_mod, Nat.cast_zero]
    rw [← he]
    exact List.mem_map_of_mem _ (List.mem_range.mpr (by omega))
  have hmemc : (((cols : ℚ) - 1) - ((cols : ℚ) - 1) / 2) * s ∈
      (List.range n).map (fun k => arrangePosX cols s k) := by
    have he : arrangePosX cols s (cols - 1) =
        (((cols : ℚ) - 1) - ((cols : ℚ) - 1) / 2) * s := by
      rw [arrangePosX, Nat.mod_eq_of_lt (by omega), Nat.cast_sub h1, Nat.cast_one]
    rw [← he]
    exact List.mem_map_of_mem _ (List.mem_range.mpr (by omega))
  rw [midspan, qmin_eq_of _ _ hmem0 hlb, qmax_eq_of _ _ hmemc hub]
  ring

lemma midspan_gridY (cols n : ℕ) (s : ℚ) (hs : 0 ≤ s) (h1 : 1 ≤ cols) (hcn : cols ≤ n)
    (hd : cols ∣ n) :
    midspan ((List.range n).map (fun k => arrangePosY n cols s k)) = 0 := by
  have hn : 1 ≤ n := le_trans h1 hcn
  have hc0 : 0 < cols := h1
  have hm1 : 1 ≤ n / cols := (Nat.one_le_div_iff hc0).mpr hcn
  have hdiv : (n - 1) / cols = n / cols - 1 := by
    obtain ⟨t, rfl⟩ := hd
    rw [Nat.mul_div_cancel_left _ hc0]
    have ht1 : 1 ≤ t := by
      rcases Nat.eq_zero_or_pos t with rfl | h
      · simp at hn
      · exact h
    obtain ⟨a, rfl⟩ : ∃ a, t = a + 1 := ⟨t - 1, by omega⟩
    have hrw : cols * (a + 1) - 1 = (cols - 1) + cols * a := by
      rw [Nat.mul_succ]
      omega
    rw [hrw, Nat.add_mul_div_left _ _ hc0, Nat.div_eq_of_lt (by omega)]
    omega
  have hlb : ∀ x ∈ (List.range n).map (fun k => arrangePosY n cols s k),
      (0 - (((n / cols : ℕ) : ℚ) - 1) / 2) * s ≤ x := by
    intro x hx
    obtain ⟨k, hk, rfl⟩ := List.mem_map.mp hx
    rw [arrangePosY]
    apply mul_le_mul_of_nonneg_right _ hs
    exact sub_le_sub_right (Nat.cast_nonneg _) _
  have hub : ∀ x ∈ (List.range n).map (fun k => arrangePosY n cols s k),
      x ≤ ((((n / cols : ℕ) : ℚ) - 1) - (((n / cols : ℕ) : ℚ) - 1) / 2) * s := by
    intro x hx
    obtain ⟨k, hk, rfl⟩ := List.mem_map.mp hx
    rw [arrangePosY]
    apply mul_le_mul_of_nonneg_right _ hs
    apply sub_le_sub_right
    have hkn : k < n := List.mem_range.mp hk
    have hkd : k / cols ≤ n / cols - 1 := by
      have h2 : k / cols ≤ (n - 1) / cols :=
        Nat.div_le_div_right (by omega)
      rw [hdiv] at h2
      exact h2
    calc ((k / cols : ℕ) : ℚ) ≤ ((n / cols - 1 : ℕ) : ℚ) := by exact_mod_cast hkd
      _ = ((n / cols : ℕ) : ℚ) - 1 := by rw [Nat.cast_sub hm1, Nat.cast_one]
  have hmem0 : (0 - (((n / cols : ℕ) : ℚ) - 1) / 2) * s ∈
      (List.range n).map (fun k => arrangePosY n cols s k) := by
    have he : arrangePosY n cols s 0 =
        (0 - (((n / cols : ℕ) : ℚ) - 1) / 2) * s := by
      rw [arrangePosY, Nat.zero_div, Nat.cast_zero]
    rw [← he]
    exact List.mem_map_of_mem _ (List.mem_range.mpr (by omega))
  have hmemM : ((((n / cols : ℕ) : ℚ) - 1) - (((n / cols : ℕ) : ℚ) - 1) / 2) * s ∈
      (List.range n).map (fun k => arrangePosY n cols s k) := by
    have he : arrangePosY n cols s (n - 1) =
        ((((n / cols : ℕ) : ℚ) - 1) - (((n / cols : ℕ) : ℚ) - 1) / 2) * s := by
      rw [arrangePosY, hdiv, Nat.cast_sub hm1, Nat.cast_one]
    rw [← he]
    exact List.mem_map_of_mem _ (List.mem_range.mpr (by omega))
  rw [midspan, qmin_eq_of _ _ hmem0 hlb, qmax_eq_of _ _ hmemM hub]
  ring

lemma go_cons_vis (n cols : ℕ) (s : ℚ) (o : VSObj) (rest : List VSObj) (i : ℕ)
    (mgr : UndoRedoManager) (hv : o.visible = true) :
    autoArrangeGo n cols s (o :: rest) i mgr =
      (⟨o.uid, o.visible, ⟨⟨arrangePosX cols s i, arrangePosY n cols s i,
          o.transform.translation.z⟩, o.transform.rotation_deg, o.transform.scale⟩⟩ ::
        (autoArrangeGo n cols s rest (i + 1)
          (mgr.push ⟨o.uid, "Auto-arrange", o.transform,
            ⟨⟨arrangePosX cols s i, arrangePosY n cols s i, o.transform.translation.z⟩,
              o.transform.rotation_deg, o.transform.scale⟩⟩)).1,
        (autoArrangeGo n cols s rest (i + 1)
          (mgr.push ⟨o.uid, "Auto-arrange", o.transform,
            ⟨⟨arrangePosX cols s i, arrangePosY n cols s i, o.transform.translation.z⟩,
              o.transform.rotation_deg, o.transform.scale⟩⟩)).2) := by
  simp only [autoArrangeGo, if_pos hv]

lemma go_cons_invis (n cols : ℕ) (s : ℚ) (o : VSObj) (rest : List VSObj) (i : ℕ)
    (mgr : UndoRedoManager) (hv : o.visible = false) :
    autoArrangeGo n cols s (o :: rest) i mgr =
      (o :: (autoArrangeGo n cols s rest i mgr).1,
        (autoArrangeGo n cols s rest i mgr).2) := by
  have h : ¬(o.visible = true) := by simp [hv]
  simp only [autoArrangeGo, if_neg h]

lemma visXs_cons_vis (o : VSObj) (l : List VSObj) (hv : o.visible = true) :
    visXs (o :: l) = o.transform.translation.x :: visXs l := by
  simp [visXs, List.filter_cons, hv]

lemma visXs_cons_invis (o : VSObj) (l : List VSObj) (hv : o.visible = false) :
    visXs (o :: l) = visXs l := by
  simp [visXs, List.filter_cons, hv]

lemma visYs_cons_vis (o : VSObj) (l : List VSObj) (hv : o.visible = true) :
    visYs (o :: l) = o.transform.translation.y :: visYs l := by
  simp [visYs, List.filter_cons, hv]

lemma visYs_cons_invis (o : VSObj) (l : List VSObj) (hv : o.visible = false) :
    visYs (o :: l) = visYs l := by
  simp [visYs, List.filter_cons, hv]

lemma go_vis_coords (n cols : ℕ) (s : ℚ) (objs : List VSObj) :
    ∀ (i : ℕ) (mgr : UndoRedoManager),
      visXs (autoArrangeGo n cols s objs i mgr).1 =
        (List.range' i (objs.countP (fun o => o.visible))).map
          (fun k => arrangePosX cols s k) ∧
      visYs (autoArrangeGo n cols s objs i mgr).1 =
        (List.range' i (objs.countP (fun o => o.visible))).map
          (fun k => arrangePosY n cols s k) := by
  induction objs with
  | nil =>
    intro i mgr
    constructor <;> simp [autoArrangeGo, visXs, visYs]
  | cons o rest ih =>
    intro i mgr
    by_cases hv : o.visible
    · obtain ⟨ihx, ihy⟩ := ih (i + 1) (mgr.push ⟨o.uid, "Auto-arrange", o.transform,
        ⟨⟨arrangePosX cols s i, arrangePosY n cols s i, o.transform.translation.z⟩,
          o.transform.rotation_deg, o.transform.scale⟩⟩)
      have hp : (fun (o : VSObj) => o.visible) o = true := hv
      rw [go_cons_vis n cols s o rest i mgr hv]
      rw [List.countP_cons_of_pos (fun (o : VSObj) => o.visible) rest hp, List.range'_succ]
      constructor
      · rw [show ((⟨o.uid, o.visible, ⟨⟨arrangePosX cols s i, arrangePosY n cols s i,
              o.transform.translation.z⟩, o.transform.rotation_deg,
              o.transform.scale⟩⟩ : VSObj) ::
            (autoArrangeGo n cols s rest (i + 1)
              (mgr.push ⟨o.uid, "Auto-arrange", o.transform,
                ⟨⟨arrangePosX cols s i, arrangePosY n cols s i,
                  o.transform.translation.z⟩, o.transform.rotation_deg,
                  o.transform.scale⟩⟩)).1,
            (autoArrangeGo n cols s rest (i + 1)
              (mgr.push ⟨o.uid, "Auto-arrange", o.transform,
                ⟨⟨arrangePosX cols s i, arrangePosY n cols s i,
                  o.transform.translation.z⟩, o.transform.rotation_deg,
                  o.transform.scale⟩⟩)).2).1 =
          (⟨o.uid, o.visible, ⟨⟨arrangePosX cols s i, arrangePosY n cols s i,
              o.transform.translation.z⟩, o.transform.rotation_deg,
              o.transform.scale⟩⟩ : VSObj) ::
            (autoArrangeGo n cols s rest (i + 1)
              (mgr.push ⟨o.uid, "Auto-arrange", o.transform,
                ⟨⟨arrangePosX cols s i, arrangePosY n cols s i,
                  o.transform.translation.z⟩, o.transform.rotation_deg,
                  o.transform.scale⟩⟩)).1 from rfl]
        rw [visXs_cons_vis ⟨o.uid, o.visible, ⟨⟨arrangePosX cols s i,
            arrangePosY n cols s i, o.transform.translation.z⟩,
            o.transform.rotation_deg, o.transform.scale⟩⟩ _ hv, List.map_cons, ihx]
      · rw [show ((⟨o.uid, o.visible, ⟨⟨arrangePosX cols s i, arrangePosY n cols s i,
              o.transform.translation.z⟩, o.transform.rotation_deg,
              o.transform.scale⟩⟩ : VSObj) ::
            (autoArrangeGo n cols s rest (i + 1)
              (mgr.push ⟨o.uid, "Auto-arrange", o.transform,
                ⟨⟨arrangePosX cols s i, arrangePosY n cols s i,
                  o.transform.translation.z⟩, o.transform.rotation_deg,
                  o.transform.scale⟩⟩)).1,
            (autoArrangeGo n cols s rest (i + 1)
              (mgr.push ⟨o.uid, "Auto-arrange", o.transform,
                ⟨⟨arrangePosX cols s i, arrangePosY n cols s i,
                  o.transform.translation.z⟩, o.transform.rotation_deg,
                  o.transform.scale⟩⟩)).2).1 =
          (⟨o.uid, o.visible, ⟨⟨arrangePosX cols s i, arrangePosY n cols s i,
              o.transform.translation.z⟩, o.transform.rotation_deg,
              o.transform.scale⟩⟩ : VSObj) ::
            (autoArrangeGo n cols s rest (i + 1)
              (mgr.push ⟨o.uid, "Auto-arrange", o.transform,
                ⟨⟨arrangePosX cols s i, arrangePosY n cols s i,
                  o.transform.translation.z⟩, o.transform.rotation_deg,
                  o.transform.scale⟩⟩)).1 from rfl]
        rw [visYs_cons_vis ⟨o.uid, o.visible, ⟨⟨arrangePosX cols s i,
            arrangePosY n cols s i, o.transform.translation.z⟩,
            o.transform.rotation_deg, o.transform.scale⟩⟩ _ hv, List.map_cons, ihy]
    · have hv2 : o.visible = false := by simpa using hv
      obtain ⟨ihx, ihy⟩ := ih i mgr
      have hnp : ¬((fun (o : VSObj) => o.visible) o = true) := by simp [hv2]
      rw [go_cons_invis n cols s o rest i mgr hv2]
      rw [List.countP_cons_of_neg (fun (o : VSObj) => o.visible) rest hnp]
      constructor
      · rw [show ((o :: (autoArrangeGo n cols s rest i mgr).1,
            (autoArrangeGo n cols s rest i mgr).2)).1 =
          o :: (autoArrangeGo n cols s rest i mgr).1 from rfl]
        rw [visXs_cons_invis o _ hv2, ihx]
      · rw [show ((o :: (autoArrangeGo n cols s rest i mgr).1,
            (autoArrangeGo n cols s rest i mgr).2)).1 =
          o :: (autoArrangeGo n cols s rest i mgr).1 from rfl]
        rw [visYs_cons_invis o _ hv2, ihy]

lemma go_forall2 (n cols : ℕ) (s : ℚ) (objs : List VSObj) :
    ∀ (i : ℕ) (mgr : UndoRedoManager),
      List.Forall₂ (fun o2 o => o2.uid = o.uid ∧ o2.visible = o.visible ∧
          o2.transform.translation.z = o.transform.translation.z ∧
          o2.transform.rotation_deg = o.transform.rotation_deg ∧
          o2.transform.scale = o.transform.scale ∧
          (o.visible = false → o2 = o))
        (autoArrangeGo n cols s objs i mgr).1 objs := by
  induction objs with
  | nil =>
    intro i mgr
    exact List.Forall₂.nil
  | cons o rest ih =>
    intro i mgr
    by_cases hv : o.visible
    · rw [go_cons_vis n cols s o rest i mgr hv]
      exact List.Forall₂.cons
        ⟨rfl, rfl, rfl, rfl, rfl,
          fun hfalse => Bool.noConfusion (hv.symm.trans hfalse)⟩
        (ih (i + 1) _)
    · have hv2 : o.visible = false := by simpa using hv
      rw [go_cons_invis n cols s o rest i mgr hv2]
      exact List.Forall₂.cons ⟨rfl, rfl, rfl, rfl, rfl, fun _ => rfl⟩ (ih i mgr)

lemma push_no_drop (m : UndoRedoManager) (e : UndoEntry)
    (hcur : m.indexSucc = m.stack.length) (hroom : m.stack.length + 1 ≤ m.max_depth) :
    m.push e = ⟨m.stack ++ [e], m.stack.length + 1, m.max_depth⟩ := by
  rw [UndoRedoManager.push, hcur, List.take_length]
  rw [if_neg (by simp; omega)]
  simp

lemma go_stack (n cols : ℕ) (s : ℚ) (objs : List VSObj) :
    ∀ (i : ℕ) (mgr : UndoRedoManager),
      mgr.indexSucc = mgr.stack.length →
      mgr.stack.length + objs.countP (fun o => o.visible) ≤ mgr.max_depth →
      ∃ es, (autoArrangeGo n cols s objs i mgr).2.stack = mgr.stack ++ es ∧
        es.length = objs.countP (fun o => o.visible) ∧
        (∀ e ∈ es, e.label = "Auto-arrange") ∧
        (autoArrangeGo n cols s objs i mgr).2.indexSucc =
          (autoArrangeGo n cols s objs i mgr).2.stack.length ∧
        (autoArrangeGo n cols s objs i mgr).2.max_depth = mgr.max_depth := by
  induction objs with
  | nil =>
    intro i mgr hcur _hroom
    exact ⟨[], by simp [autoArrangeGo], by simp, by simp,
      by simpa [autoArrangeGo] using hcur, by simp [autoArrangeGo]⟩
  | cons o rest ih =>
    intro i mgr hcur hroom
    by_cases hv : o.visible
    · have hp2 : (fun (o : VSObj) => o.visible) o = true := hv
      have hcnt : (o :: rest).countP (fun o => o.visible) =
          rest.countP (fun o => o.visible) + 1 :=
        List.countP_cons_of_pos (fun (o : VSObj) => o.visible) rest hp2
      set e0 : UndoEntry := ⟨o.uid, "Auto-arrange", o.transform,
        ⟨⟨arrangePosX cols s i, arrangePosY n cols s i, o.transform.translation.z⟩,
          o.transform.rotation_deg, o.transform.scale⟩⟩ with he0
      have hpush : mgr.push e0 = ⟨mgr.stack ++ [e0], mgr.stack.length + 1, mgr.max_depth⟩ :=
        push_no_drop mgr e0 hcur (by rw [hcnt] at hroom; omega)
      obtain ⟨es, h1, h2, h3, h4, h5⟩ := ih (i + 1) (mgr.push e0)
        (by rw [hpush]; simp)
        (by rw [hpush]
            have hr2 := hroom
            rw [hcnt] at hr2
            simp only [List.length_append, List.length_cons, List.length_nil]
            omega)
      refine ⟨e0 :: es, ?_, ?_, ?_, ?_, ?_⟩
      · rw [go_cons_vis n cols s o rest i mgr hv, ← he0]
        rw [show ((_ :: (autoArrangeGo n cols s rest (i + 1) (mgr.push e0)).1,
            (autoArrangeGo n cols s rest (i + 1) (mgr.push e0)).2) :
              List VSObj × UndoRedoManager).2 =
          (autoArrangeGo n cols s rest (i + 1) (mgr.push e0)).2 from rfl]
        rw [h1, hpush]
        simp
      · rw [hcnt]
        simp [h2]
      · intro e he
        rcases List.mem_cons.mp he with rfl | he
        · rfl
        · exact h3 e he
      · rw [go_cons_vis n cols s o rest i mgr hv, ← he0]
        exact h4
      · rw [go_cons_vis n cols s o rest i mgr hv, ← he0, h5, hpush]
    · have hv2 : o.visible = false := by simpa using hv
      have hnp : ¬((fun (o : VSObj) => o.visible) o = true) := by simp [hv2]
      have hcnt : (o :: rest).countP (fun o => o.visible) =
          rest.countP (fun o => o.visible) :=
        List.countP_cons_of_neg (fun (o : VSObj) => o.visible) rest hnp
      obtain ⟨es, h1, h2, h3, h4, h5⟩ := ih i mgr hcur (by rw [hcnt] at hroom; exact hroom)
      refine ⟨es, ?_, ?_, h3, ?_, ?_⟩
      · rw [go_cons_invis n cols s o rest i mgr hv2]
        exact h1
      · rw [hcnt]
        exact h2
      · rw [go_cons_invis n cols s o rest i mgr hv2]
        exact h4
      · rw [go_cons_invis n cols s o rest i mgr hv2]
        exact h5

/-- C8 counterexample: three visible default-transform objects on a
radius-60 plate are laid out with visible Y translations [0, 0, 36]; the
midpoint of the spanned Y interval is 18, not 0, so the produced grid is
not centered on the origin (the Y centering uses `n // cols` instead of
the actual row count `ceil(n / cols)`). -/
theorem auto_arrange_claim_false :
    midspan (visYs (auto_arrange 60
      [⟨0, true, Transform.default⟩, ⟨1, true, Transform.default⟩,
        ⟨2, true, Transform.default⟩] UndoRedoManager.empty).1) ≠ 0 := by
  have hs3 : Nat.sqrt 3 = 1 := by
    have hle : 1 ≤ Nat.sqrt 3 := Nat.le_sqrt.mpr (by norm_num)
    have hlt : Nat.sqrt 3 < 2 := Nat.sqrt_lt.mpr (by norm_num)
    omega
  have hcs : ceilSqrt 3 = 2 := by
    rw [ceilSqrt, hs3]
    norm_num
  have hres : visYs (auto_arrange 60
      [⟨0, true, Transform.default⟩, ⟨1, true, Transform.default⟩,
        ⟨2, true, Transform.default⟩] UndoRedoManager.empty).1 = [0, 0, 36] := by
    simp only [auto_arrange, autoArrangeGo, List.filter, Transform.default,
      Vec3.zero, Vec3.one, List.length_cons, List.length_nil, hcs]
    norm_num [visYs, List.filter, arrangePosX, arrangePosY]
  rw [hres]
  norm_num [midspan, qmin, qmax]

/-- C8: with a nonempty set of visible objects, `auto_arrange` lays the
visible objects (in list order) on the grid slots `0, …, n-1` of a grid
with `cols = max 1 ⌈√n⌉` columns and cell spacing `0.6 × radius`
(`arrangePosX`/`arrangePosY` are the code's slot-coordinate formulas);
every object keeps its uid, visibility, Z translation, rotation and
scale, invisible objects are completely untouched, and (when no redo tail
is pending and the depth cap has room) exactly one undo entry per visible
object labeled "Auto-arrange" is pushed.  The grid is centered on the
origin in X; in Y it is centered when `cols` divides `n` (and in general
it need not be). -/
theorem auto_arrange_grid (radius : ℚ) (objs : List VSObj) (mgr : UndoRedoManager)
    (hvis : objs.filter (fun o => o.visible) ≠ [])
    (hr : 0 ≤ radius)
    (hcur : mgr.indexSucc = mgr.stack.length)
    (hroom : mgr.stack.length + (objs.filter (fun o => o.visible)).length ≤
      mgr.max_depth) :
    List.Forall₂ (fun o2 o => o2.uid = o.uid ∧ o2.visible = o.visible ∧
        o2.transform.translation.z = o.transform.translation.z ∧
        o2.transform.rotation_deg = o.transform.rotation_deg ∧
        o2.transform.scale = o.transform.scale ∧
        (o.visible = false → o2 = o))
      (auto_arrange radius objs mgr).1 objs ∧
    visXs (auto_arrange radius objs mgr).1 =
      (List.range (objs.filter (fun o => o.visible)).length).map
        (fun k => arrangePosX
          (max 1 (ceilSqrt (objs.filter (fun o => o.visible)).length))
          (radius * (3 / 5)) k) ∧
    visYs (auto_arrange radius objs mgr).1 =
      (List.range (objs.filter (fun o => o.visible)).length).map
        (fun k => arrangePosY (objs.filter (fun o => o.visible)).length
          (max 1 (ceilSqrt (objs.filter (fun o => o.visible)).length))
          (radius * (3 / 5)) k) ∧
    (∃ es, (auto_arrange radius objs mgr).2.stack = mgr.stack ++ es ∧
      es.length = (objs.filter (fun o => o.visible)).length ∧
      ∀ e ∈ es, e.label = "Auto-arrange") ∧
    midspan (visXs (auto_arrange radius objs mgr).1) = 0 ∧
    ((max 1 (ceilSqrt (objs.filter (fun o => o.visible)).length)) ∣
        (objs.filter (fun o => o.visible)).length →
      midspan (visYs (auto_arrange radius objs mgr).1) = 0) := by
  have hn1 : 1 ≤ (objs.filter (fun o => o.visible)).length := by
    rcases Nat.eq_zero_or_pos (objs.filter (fun o => o.visible)).length with h | h
    · exact absurd (List.eq_nil_of_length_eq_zero h) hvis
    · exact h
  have hcols1 : 1 ≤ max 1 (ceilSqrt (objs.filter (fun o => o.visible)).length) :=
    le_max_left _ _
  have hcolsn : max 1 (ceilSqrt (objs.filter (fun o => o.visible)).length) ≤
      (objs.filter (fun o => o.visible)).length :=
    max_le hn1 (ceilSqrt_le _ hn1)
  have hs : (0 : ℚ) ≤ radius * (3 / 5) := mul_nonneg hr (by norm_num)
  have hstep : auto_arrange radius objs mgr =
      autoArrangeGo (objs.filter (fun o => o.visible)).length
        (max 1 (ceilSqrt (objs.filter (fun o => o.visible)).length))
        (radius * (3 / 5)) objs 0 mgr := by
    simp only [auto_arrange]
    rw [if_neg (by simpa [List.isEmpty_iff] using hvis)]
  have hcount : objs.countP (fun o => o.visible) =
      (objs.filter (fun o => o.visible)).length := List.countP_eq_length_filter _ objs
  obtain ⟨hvx, hvy⟩ := go_vis_coords (objs.filter (fun o => o.visible)).length
    (max 1 (ceilSqrt (objs.filter (fun o => o.visible)).length))
    (radius * (3 / 5)) objs 0 mgr
  rw [hcount, ← List.range_eq_range'] at hvx hvy
  refine ⟨?_, ?_, ?_, ?_, ?_, ?_⟩
  · rw [hstep]
    exact go_forall2 _ _ _ objs 0 mgr
  · rw [hstep]
    exact hvx
  · rw [hstep]
    exact hvy
  · rw [hstep]
    obtain ⟨es, h1, h2, h3, _h4, _h5⟩ := go_stack
      (objs.filter (fun o => o.visible)).length
      (max 1 (ceilSqrt (objs.filter (fun o => o.visible)).length))
      (radius * (3 / 5)) objs 0 mgr hcur (by rw [hcount]; exact hroom)
    exact ⟨es, h1, by rw [h2, hcount], h3⟩
  · rw [hstep, hvx]
    exact midspan_gridX _ _ _ hs hcols1 hcolsn
  · intro hd
    rw [hstep, hvy]
    exact midspan_gridY _ _ _ hs hcols1 hcolsn hd

/-- Witness for C8: one visible default object on a radius-60 plate with a
fresh undo manager. -/
theorem auto_arrange_grid_witness :
    (([⟨0, true, Transform.default⟩] : List VSObj).filter (fun o => o.visible) ≠ [] ∧
      (0 : ℚ) ≤ 60 ∧
      UndoRedoManager.empty.indexSucc = UndoRedoManager.empty.stack.length ∧
      UndoRedoManager.empty.stack.length +
        (([⟨0, true, Transform.default⟩] : List VSObj).filter
          (fun o => o.visible)).length ≤ UndoRedoManager.empty.max_depth) ∧
    (List.Forall₂ (fun o2 o => o2.uid = o.uid ∧ o2.visible = o.visible ∧
        o2.transform.translation.z = o.transform.translation.z ∧
        o2.transform.rotation_deg = o.transform.rotation_deg ∧
        o2.transform.scale = o.transform.scale ∧
        (o.visible = false → o2 = o))
      (auto_arrange 60 [⟨0, true, Transform.default⟩] UndoRedoManager.empty).1
      [⟨0, true, Transform.default⟩] ∧
    visXs (auto_arrange 60 [⟨0, true, Transform.default⟩] UndoRedoManager.empty).1 =
      (List.range (([⟨0, true, Transform.default⟩] : List VSObj).filter
          (fun o => o.visible)).length).map
        (fun k => arrangePosX
          (max 1 (ceilSqrt (([⟨0, true, Transform.default⟩] : List VSObj).filter
            (fun o => o.visible)).length))
          ((60 : ℚ) * (3 / 5)) k) ∧
    visYs (auto_arrange 60 [⟨0, true, Transform.default⟩] UndoRedoManager.empty).1 =
      (List.range (([⟨0, true, Transform.default⟩] : List VSObj).filter
          (fun o => o.visible)).length).map
        (fun k => arrangePosY
          (([⟨0, true, Transform.default⟩] : List VSObj).filter
            (fun o => o.visible)).length
          (max 1 (ceilSqrt (([⟨0, true, Transform.default⟩] : List VSObj).filter
            (fun o => o.visible)).length))
          ((60 : ℚ) * (3 / 5)) k) ∧
    (∃ es, (auto_arrange 60 [⟨0, true, Transform.default⟩]
        UndoRedoManager.empty).2.stack = UndoRedoManager.empty.stack ++ es ∧
      es.length = (([⟨0, true, Transform.default⟩] : List VSObj).filter
        (fun o => o.visible)).length ∧
      ∀ e ∈ es, e.label = "Auto-arrange") ∧
    midspan (visXs (auto_arrange 60 [⟨0, true, Transform.default⟩]
      UndoRedoManager.empty).1) = 0 ∧
    ((max 1 (ceilSqrt (([⟨0, true, Transform.default⟩] : List VSObj).filter
          (fun o => o.visible)).length)) ∣
        (([⟨0, true, Transform.default⟩] : List VSObj).filter
          (fun o => o.visible)).length →
      midspan (visYs (auto_arrange 60 [⟨0, true, Transform.default⟩]
        UndoRedoManager.empty).1) = 0)) :=
  ⟨⟨by simp [List.filter], by norm_num, rfl, by simp [List.filter, UndoRedoManager.empty]⟩,
    auto_arrange_grid 60 [⟨0, true, Transform.default⟩] UndoRedoManager.empty
      (by simp [List.filter]) (by norm_num) rfl
      (by simp [List.filter, UndoRedoManager.empty])⟩

end Slicer
